import Mathlib

/-!
# Rcs BVH parser (`src/RcsCore/Rcs_BVHParser.c`)

A shallow embedding of the hierarchy parser (`parseRecursive`,
`RcsGraph_createFromBVHFile`), of the keyword scan (`findKeyword`) and of the
trajectory reader (`RcsGraph_createTrajectoryFromBVHFile`), followed by the
properties proved about them.

Conventions of the embedding.

* The file is the list of its whitespace-delimited runs (`Token`).  A run is a
  word, an integer literal, a non-integer number literal, or a run that only
  begins a number (a lone sign or a lone decimal point); a word is a run in
  which no numeric conversion can start.  Every run is taken to be no longer
  than the width of the `%31s` / `%63s` conversion that reads it, so such a
  conversion delivers the run whole, and an integer literal fits the C `int`.
* The `double` values of the hierarchy parser (the offsets and the linear
  factor) are values of IEEE 754 binary64 (`Double`): every product and sum is
  rounded to the nearest double, may underflow to zero and may overflow to an
  infinity.  The two zeros are not told apart.
* The entries of the trajectory matrix, the frame time and the two factors of
  the trajectory reader are rationals: what is proved of them is proved over
  exact arithmetic.
* A C function that may not return is a function of a number of stack frames
  (or loop iterations) `fuel`; `none` means that it has not returned within
  that budget.
* `Res.abort` is the process exit of a failed `RCHECK`; `Res.undefined` marks a
  state the C source gives no meaning to (a null pointer dereferenced, an
  uninitialised variable read, a buffer overrun, a division by zero) or a
  numeric conversion that would stop inside a run.
-/

namespace BVH

/-! ## Token source -/

/-- One whitespace-delimited run of the file.  A `stub` is a run that begins a
number and is none: the conversion `%lf` reads it to its end and then fails.
When `sign` is true the run is a lone sign (`-`, `+`) and the conversion `%d`
does the same; when it is false the run is a lone decimal point (`.`), in
which `%d` cannot start. -/
inductive Token where
  | word (text : String)
  | int (text : String) (n : Int)
  | real (text : String) (q : ℚ)
  | stub (text : String) (sign : Bool)
  deriving DecidableEq

/-- The characters of a run, as a `%s` conversion stores them. -/
def Token.text : Token → String
  | .word t => t
  | .int t _ => t
  | .real t _ => t
  | .stub t _ => t

/-- Result of one numeric `fscanf` conversion: `eof` is the return value `EOF`,
`fail` the return value 0 (matching failure, the variable left as it was) and
`item` the return value 1.  `fd` is the file after the characters the
conversion has consumed: a failed conversion consumes nothing of a word and
all of a run that only begins a number. -/
inductive Scan (α : Type) where
  | eof
  | fail (fd : List Token)
  | item (v : α) (fd : List Token)

/-- The call `fscanf(fd, "%63s", buf)` (or `%31s`) with its result ignored: at
end of input `buf` keeps its contents. -/
def scanString (buf : String) (fd : List Token) : String × List Token :=
  match fd with
  | [] => (buf, [])
  | t :: rest => (t.text, rest)

/-- The conversion `%lf`; the value is that of the literal. -/
def scanDouble (fd : List Token) : Scan ℚ :=
  match fd with
  | [] => .eof
  | .word t :: rest => .fail (.word t :: rest)
  | .int _ n :: rest => .item (n : ℚ) rest
  | .real _ q :: rest => .item q rest
  | .stub _ _ :: rest => .fail rest

/-- The conversion `%d`; `none` is a conversion that would stop inside a run
(`%d` applied to `3.5`). -/
def scanInt (fd : List Token) : Option (Scan Int) :=
  match fd with
  | [] => some .eof
  | .word t :: rest => some (.fail (.word t :: rest))
  | .int _ n :: rest => some (.item n rest)
  | .real _ _ :: _ => none
  | .stub _ true :: rest => some (.fail rest)
  | .stub t false :: rest => some (.fail (.stub t false :: rest))

/-- Modelled from the spec: the macro `STREQ(a,b)` of `Rcs_macros.h`,
`strcmp(a,b)==0`, the case-sensitive comparison of the terminal tokens. -/
def STREQ (a b : String) : Bool := a == b

/-- Modelled from the spec: the macro `STRCASEEQ(a,b)` of `Rcs_macros.h`,
`strcasecmp(a,b)==0`, "tokens are case-insensitive". -/
def STRCASEEQ (a b : String) : Bool :=
  a.toList.map Char.toLower == b.toList.map Char.toLower

/-- The macro `STRNCASEEQ(a,b,n)`, `strncasecmp(a,b,n)==0`: the first `n`
characters agree when case is ignored. -/
def STRNCASEEQ (a b : String) (n : Nat) : Bool :=
  (a.toList.take n).map Char.toLower == (b.toList.take n).map Char.toLower

/-! ## Results -/

/-- How a C function ends: it returns, the process exits, or its behaviour is
undefined.  The exit is that of the macro `RCHECK` of `Rcs_macros.h`, modelled
from the spec: the process crashes "only on programmer-asserted invariants
... where explicitly checked". -/
inductive Res (α : Type) where
  | ret (a : α)
  | abort
  | undefined

/-- Sequencing of a call that may not return with the code that follows it. -/
def andThen {α β : Type} (r : Option (Res α)) (k : α → Option (Res β)) : Option (Res β) :=
  match r with
  | none => none
  | some (.ret a) => k a
  | some .abort => some .abort
  | some .undefined => some .undefined

/-! ## Kinematic tree -/

/-- A value of the C type `double` (IEEE 754 binary64): a finite value, an
infinity or a NaN.  The finite values delivered by `Double.round` are the
doubles; the two zeros are one value. -/
inductive Double where
  | finite (q : ℚ)
  | inf (neg : Bool)
  | nan
  deriving DecidableEq

/-- The integer nearest to `x`, the even one of two that are equally near. -/
def roundHalfEven (x : ℚ) : Int :=
  let f := ⌊x⌋
  if x - f < 1 / 2 then f
  else if 1 / 2 < x - f then f + 1
  else if f % 2 = 0 then f else f + 1

/-- The double nearest to the rational `q` (round to nearest, ties to even).
`e` is the exponent of the binade of `q`, at least that of the subnormal
numbers, and `ulp` the distance of neighbouring doubles there; a result of
`2 ^ 1024` or more is an infinity. -/
def Double.round (q : ℚ) : Double :=
  let e := max (Int.log 2 |q|) (-1022)
  let ulp : ℚ := 2 ^ (e - 52)
  let r : ℚ := roundHalfEven (|q| / ulp) * ulp
  if r < 2 ^ 1024 then .finite (if q < 0 then -r else r) else .inf (decide (q < 0))

/-- The product `x * y` of two doubles. -/
def Double.mul : Double → Double → Double
  | .finite a, .finite b => Double.round (a * b)
  | .finite a, .inf n => if a = 0 then .nan else .inf (xor (decide (a < 0)) n)
  | .inf n, .finite b => if b = 0 then .nan else .inf (xor n (decide (b < 0)))
  | .inf m, .inf n => .inf (xor m n)
  | _, _ => .nan

/-- The sum `x + y` of two doubles. -/
def Double.add : Double → Double → Double
  | .finite a, .finite b => Double.round (a + b)
  | .finite _, .inf n => .inf n
  | .inf n, .finite _ => .inf n
  | .inf m, .inf n => if m = n then .inf m else .nan
  | _, _ => .nan

/-- The comparison `x < y` of two doubles; it is false when one is a NaN. -/
def Double.lt : Double → Double → Bool
  | .finite a, .finite b => decide (a < b)
  | .finite _, .inf n => !n
  | .inf n, .finite _ => n
  | .inf m, .inf n => m && !n
  | _, _ => false

abbrev Vec3 := Double × Double × Double

/-- Modelled from the spec: the function `Vec3d_zeroVec()` of the vector
library, the zero vector. -/
def Vec3d_zeroVec : Vec3 := (.finite 0, .finite 0, .finite 0)

/-- Modelled from the spec: the function `Vec3d_constMulSelf(v, s)`, "scale by
the linear-unit factor": each component is multiplied by `s`. -/
def Vec3d_constMul (v : Vec3) (s : Double) : Vec3 := (v.1.mul s, v.2.1.mul s, v.2.2.mul s)

/-- Modelled from the spec: the function `Vec3d_sqrLength(v)`, the squared
length `v[0]*v[0] + v[1]*v[1] + v[2]*v[2]` by which the parser tells a
"non-zero" pending offset; each product and each sum, taken from the left, is
rounded to a double. -/
def Vec3d_sqrLength (v : Vec3) : Double :=
  ((v.1.mul v.1).add (v.2.1.mul v.2.1)).add (v.2.2.mul v.2.2)

/-- The constant `M_PI` of `math.h`: the double nearest to pi. -/
def M_PI : ℚ := 884279719003555 / 281474976710656

inductive RcsShapeType where
  | RCSSHAPE_REFFRAME
  | RCSSHAPE_SPHERE
  | RCSSHAPE_BOX
  deriving DecidableEq

inductive RcsJointType where
  | RCSJOINT_TRANS_X
  | RCSJOINT_TRANS_Y
  | RCSJOINT_TRANS_Z
  | RCSJOINT_ROT_X
  | RCSJOINT_ROT_Y
  | RCSJOINT_ROT_Z
  deriving DecidableEq

/-- The fields of `RcsJoint` the parser sets.  `body` is the body the joint was
inserted on, `A_JP` the origin of the optional relative transform (`none` is
the null pointer).  `chan` is a ghost field, not part of the C struct: the
value of the loop counter `i` of the CHANNELS block that created the joint. -/
structure RcsJoint where
  name : String
  body : Nat
  type : RcsJointType
  q_min : ℚ
  q_max : ℚ
  dirIdx : Nat
  A_JP : Option Vec3
  chan : Nat
  deriving DecidableEq

/-- The fields of `RcsBody` the parser sets: its name, its parent (`none` for a
body inserted at the top of the graph), whether the relative transform `A_BP`
was created, and the kinds of the shapes attached. -/
structure RcsBody where
  name : String
  parent : Option Nat
  A_BP : Bool
  shapes : List RcsShapeType
  deriving DecidableEq

/-- Modelled from the spec: the kinematic-tree store (`RcsGraph`,
`RcsGraph_insertBody`, `RcsGraph_insertJoint`), "node insertion (parent+child)
and joint insertion (body+joint) with stable indices".  Bodies and joints are
kept in insertion order; a body pointer is the position of the body, the
`jointIndex` of a joint is its position and `dof` is the number of joints. -/
structure RcsGraph where
  bodies : List RcsBody
  joints : List RcsJoint
  deriving DecidableEq

def RcsGraph.dof (g : RcsGraph) : Nat := g.joints.length

/-- Modelled from the spec: the function `RcsGraph_insertBody(self, parent,
child)`, "node insertion (parent+child)"; the child is created with a
reference-frame shape. -/
def RcsGraph_insertBody (g : RcsGraph) (parent : Option Nat) (name : String)
    (A_BP : Bool) : RcsGraph :=
  { g with bodies := g.bodies ++
      [{ name := name, parent := parent, A_BP := A_BP, shapes := [.RCSSHAPE_REFFRAME] }] }

/-- Modelled from the spec: the function `RcsGraph_insertJoint(self, body,
jnt)`, "joint insertion (body+joint)"; the body is the field `body` of `jnt`. -/
def RcsGraph_insertJoint (g : RcsGraph) (jnt : RcsJoint) : RcsGraph :=
  { g with joints := g.joints ++ [jnt] }

/-- Modelled from the spec: the function `RcsBody_addShape(body, shape)` for the
body at position `b`, "attach non-kinematic drawable markers to a body". -/
def RcsBody_addShape (g : RcsGraph) (b : Nat) (shape : RcsShapeType) : RcsGraph :=
  { g with bodies := g.bodies.enum.map fun ib =>
      if ib.1 = b then { ib.2 with shapes := ib.2.shapes ++ [shape] } else ib.2 }

/-- Modelled from the spec: the function `RcsJoint_isRotation(jnt)`, "rotation
channels get the angular-unit factor, all others get the linear-unit factor". -/
def RcsJoint_isRotation (j : RcsJoint) : Bool :=
  match j.type with
  | .RCSJOINT_ROT_X => true
  | .RCSJOINT_ROT_Y => true
  | .RCSJOINT_ROT_Z => true
  | _ => false

/-! ## `parseRecursive` -/

/-- What all frames of `parseRecursive` share: the token buffer `buf`, the
graph `self` and the file `fd`. -/
structure St where
  buf : String
  self : RcsGraph
  fd : List Token

/-- The label chain of the CHANNELS branch (lines 158-204): type, `q_min`,
`q_max` and `dirIdx` of the joint, or `none` in the final `else`. -/
def channelOf (buf : String) : Option (RcsJointType × ℚ × ℚ × Nat) :=
  if STRNCASEEQ buf "Xposition" 63 then some (.RCSJOINT_TRANS_X, -1, 1, 0)
  else if STRNCASEEQ buf "Yposition" 63 then some (.RCSJOINT_TRANS_Y, -1, 1, 1)
  else if STRNCASEEQ buf "Zposition" 63 then some (.RCSJOINT_TRANS_Z, -1, 1, 2)
  else if STRNCASEEQ buf "Xrotation" 63 then some (.RCSJOINT_ROT_X, -M_PI, M_PI, 0)
  else if STRNCASEEQ buf "Yrotation" 63 then some (.RCSJOINT_ROT_Y, -M_PI, M_PI, 1)
  else if STRNCASEEQ buf "Zrotation" 63 then some (.RCSJOINT_ROT_Z, -M_PI, M_PI, 2)
  else none

/-- Number of bytes `sprintf(a, "%s_jnt_%s", body->name, buf)` writes into
`char a[128]`, the terminator included. -/
def jointNameSize (bodyName buf : String) : Nat := bodyName.length + 5 + buf.length + 1

/-- The call `fscanf(fd, "%63s", buf)` on the shared state. -/
def nextToken (st : St) : St :=
  { st with buf := (scanString st.buf st.fd).1, fd := (scanString st.buf st.fd).2 }

/-- How the `for` loop of the CHANNELS branch ends: it ran to its end, or the
function returned from inside it. -/
inductive Flow where
  | next (st : St)
  | returned (success : Bool) (st : St)

/-- The loop `for (int i=0; i<nChannels; ++i)` of the CHANNELS branch (lines
140-207), with `n` iterations to go. -/
def channelsLoop (body : Option Nat) (offset : Vec3) : Nat → Nat → St → Res Flow
  | 0, _, st => .ret (.next st)
  | n + 1, i, st =>
    let st1 := nextToken st
    match body with
    | none => .undefined
    | some b =>
      match st1.self.bodies[b]? with
      | none => .undefined
      | some bd =>
        if 128 < jointNameSize bd.name st1.buf then .undefined
        else
          match channelOf st1.buf with
          | none => .ret (.returned false st1)
          | some (type, q_min, q_max, dirIdx) =>
            let jnt : RcsJoint :=
              { name := bd.name ++ "_jnt_" ++ st1.buf
                body := b
                type := type
                q_min := q_min
                q_max := q_max
                dirIdx := dirIdx
                A_JP := if i = 0 ∧ Double.lt (.finite 0) (Vec3d_sqrLength offset)
                  then some offset else none
                chan := i }
            channelsLoop body offset n (i + 1)
              { st1 with self := RcsGraph_insertJoint st1.self jnt }

/-- What a numeric conversion that stored no value has left of the file. -/
def Scan.rest {α : Type} (fd : List Token) : Scan α → List Token
  | .eof => fd
  | .fail fd1 => fd1
  | .item _ fd1 => fd1

/-- The conversion `fscanf(fd, "%lf %lf %lf", ...)` of the OFFSET branch: the
three doubles stored when all three conversions succeed (each the double
nearest to its literal), and the file after the conversions made; the call
ends with the first conversion that fails. -/
def scanVec3 (fd : List Token) : Option Vec3 × List Token :=
  match scanDouble fd with
  | .item x fd1 =>
    match scanDouble fd1 with
    | .item y fd2 =>
      match scanDouble fd2 with
      | .item z fd3 => (some (Double.round x, Double.round y, Double.round z), fd3)
      | r => (none, r.rest fd2)
    | r => (none, r.rest fd1)
  | r => (none, r.rest fd)

/-- One conversion `fscanf(fd, "%lf", &x)` into an uninitialised variable. -/
def scanOne (fd : List Token) : Option ℚ × List Token :=
  match scanDouble fd with
  | .item x fd1 => (some x, fd1)
  | r => (none, r.rest fd)

/-- The conversion `fscanf(fd, "%d", &n)` into a variable initialised to 0;
`none` when the conversion would stop inside a run. -/
def scanCount (fd : List Token) : Option (Int × List Token) :=
  match scanInt fd with
  | none => none
  | some (.item n fd1) => some (n, fd1)
  | some r => some (0, r.rest fd)

/-- A recursive call whose result is not looked at. -/
def discard (r : Option (Res (Bool × St))) : Option (Res St) :=
  andThen r fun p => some (.ret p.2)

/-- Lines 275-299: the terminal tokens, and the recursion on the token that is
in `buf` otherwise. -/
def tailCheck (call : St → Option Nat → Vec3 → Option (Res (Bool × St)))
    (st : St) (body : Option Nat) : Option (Res (Bool × St)) :=
  if STREQ st.buf "\x7d" then some (.ret (true, st))
  else if STREQ st.buf "MOTION" then some (.ret (true, st))
  else if STREQ st.buf "Frames:" then some (.ret (true, st))
  else if STREQ st.buf "Frame" then some (.ret (true, st))
  else andThen (discard (call st body Vec3d_zeroVec)) fun st1 => some (.ret (true, st1))

/-- The body of `parseRecursive` (lines 102-299); `call` is the recursive
call. -/
def parseBody (linearScaleToSI : Double) (Z_up_x_forward : Bool)
    (call : St → Option Nat → Vec3 → Option (Res (Bool × St)))
    (st : St) (body : Option Nat) (offset : Vec3) : Option (Res (Bool × St)) :=
  if STRCASEEQ st.buf "ROOT" then
    let st1 := nextToken st
    let child := st1.self.bodies.length
    let st2 := { st1 with self := RcsGraph_insertBody st1.self body st1.buf Z_up_x_forward }
    let st3 := nextToken (nextToken st2)
    andThen (discard (call st3 (some child) Vec3d_zeroVec))
      fun st4 => tailCheck call st4 body
  else if STRCASEEQ st.buf "OFFSET" then
    match scanVec3 st.fd with
    | (none, _) => some .undefined
    | (some offs, fd1) =>
      let st1 := nextToken { st with fd := fd1 }
      andThen (discard (call st1 body (Vec3d_constMul offs linearScaleToSI)))
        fun st2 => tailCheck call st2 body
  else if STRCASEEQ st.buf "CHANNELS" then
    match scanCount st.fd with
    | none => some .undefined
    | some (nChannels, fd1) =>
      match channelsLoop body offset nChannels.toNat 0 { st with fd := fd1 } with
      | .abort => some .abort
      | .undefined => some .undefined
      | .ret (.returned success st1) => some (.ret (success, st1))
      | .ret (.next st1) =>
        andThen (discard (call (nextToken st1) body Vec3d_zeroVec))
          fun st2 => tailCheck call st2 body
  else if STRCASEEQ st.buf "JOINT" then
    let st1 := nextToken st
    let child := st1.self.bodies.length
    let st2 := { st1 with self := RcsGraph_insertBody st1.self body st1.buf false }
    let st3 := nextToken (nextToken st2)
    andThen (call st3 (some child) Vec3d_zeroVec)
      fun p =>
        if p.1 = false then some .abort
        else tailCheck call (nextToken p.2) body
  else if STRCASEEQ st.buf "End" then
    let st3 := nextToken (nextToken (nextToken st))
    let (x, fd4) := scanOne st3.fd
    let (y, fd5) := scanOne fd4
    let (z, fd6) := scanOne fd5
    let st7 := nextToken { st3 with fd := fd6 }
    if STREQ st7.buf "\x7d" = false then some .abort
    else
      let st8 := nextToken st7
      match x, y, z, body with
      | some _, some _, some _, some b =>
        let st9 := { st8 with self := RcsBody_addShape st8.self b .RCSSHAPE_SPHERE }
        andThen (discard (call st9 body Vec3d_zeroVec))
          fun st10 => tailCheck call st10 body
      | _, _, _, _ => some .undefined
  else tailCheck call st body

/-- The function `parseRecursive`, given `fuel` stack frames. -/
def parseRecursive (linearScaleToSI : Double) (Z_up_x_forward : Bool) :
    Nat → St → Option Nat → Vec3 → Option (Res (Bool × St))
  | 0 => fun _ _ _ => none
  | fuel + 1 =>
    parseBody linearScaleToSI Z_up_x_forward
      (parseRecursive linearScaleToSI Z_up_x_forward fuel)

/-- The function `addGeometry`: a box and a sphere on a body for each of its
children. -/
def addGeometry (g : RcsGraph) : RcsGraph :=
  { g with bodies := g.bodies.enum.map fun ib =>
      { ib.2 with shapes := ib.2.shapes ++
          ((g.bodies.filter fun c => c.parent = some ib.1).flatMap
            (fun _ => [RcsShapeType.RCSSHAPE_BOX, RcsShapeType.RCSSHAPE_SPHERE])) } }

/-- The function `RcsGraph_createFromBVHFile`; `file` is `none` when the file
cannot be opened, and the result `none` inside `Res.ret` is the null pointer. -/
def RcsGraph_createFromBVHFile (fuel : Nat) (file : Option (List Token))
    (linearScaleToSI : Double) (Z_up_x_forward : Bool) : Option (Res (Option RcsGraph)) :=
  match file with
  | none => some (.ret none)
  | some fd =>
    let empty : RcsGraph := { bodies := [], joints := [] }
    let st1 := nextToken { buf := "", self := empty, fd := fd }
    if STRCASEEQ st1.buf "HIERARCHY" = false then some .abort
    else
      let st2 := nextToken st1
      if STRCASEEQ st2.buf "ROOT" = false then some .abort
      else
        let self : RcsGraph :=
          if Z_up_x_forward then RcsGraph_insertBody empty none "BVHROOT" true
          else empty
        let bvhRoot : Option Nat := if Z_up_x_forward then some 0 else none
        andThen
          (parseRecursive linearScaleToSI Z_up_x_forward fuel
            { st2 with self := self } bvhRoot Vec3d_zeroVec)
          fun p =>
            if p.1 = false then some .abort
            else some (.ret (some (addGeometry p.2.self)))

/-! ## `findKeyword` and the trajectory reader -/

/-- The function `findKeyword`: the loop reads one token per iteration and
ends at the first token that matches `keyword` or at end of input.  The result
is the return value and the file after the tokens read. -/
def findKeyword (keyword : String) : List Token → Bool × List Token
  | [] => (false, [])
  | t :: rest => if STRNCASEEQ t.text keyword 32 then (true, rest) else findKeyword keyword rest

/-- Modelled from the spec: the matrix type `MatNd`, "frames × channels of
floating-point values", `m` rows and `n` columns stored row by row in `ele`. -/
structure MatNd where
  m : Nat
  n : Nat
  ele : List ℚ
  deriving DecidableEq

/-- Modelled from the spec: `MatNd_create(m, n)`, a zero-filled `m × n` matrix. -/
def MatNd_create (m n : Nat) : MatNd := { m := m, n := n, ele := List.replicate (m * n) 0 }

/-- Conversion of an `int` to `unsigned int`. -/
def toUnsigned (i : Int) : Nat := (i % 2 ^ 32).toNat

/-- Conversion of an `unsigned int` to `int`. -/
def toSigned (u : Nat) : Int := if u < 2 ^ 31 then (u : Int) else (u : Int) - 2 ^ 32

/-- The probe loop (lines 489-495): `do { isEOF = fscanf(fd, "%lf", &dummy);
numValues++; } while (isEOF != EOF)`, given `fuel` iterations.  The result is
`numValues` at the exit of the loop. -/
def probeLoop : Nat → List Token → Nat → Option Nat
  | 0, _, _ => none
  | fuel + 1, fd, numValues =>
    match scanDouble fd with
    | .eof => some ((numValues + 1) % 2 ^ 32)
    | .fail fd1 => probeLoop fuel fd1 ((numValues + 1) % 2 ^ 32)
    | .item _ fd1 => probeLoop fuel fd1 ((numValues + 1) % 2 ^ 32)

/-- The fill loop (lines 517-523): `do { isEOF = fscanf(fd, "%lf",
&data->ele[numValues]); numValues++; } while (isEOF != EOF)`.  A failed
conversion leaves its entry as it was and is counted; a value stored past the
end of `ele` is undefined behaviour. -/
def fillLoop : Nat → List Token → Nat → List ℚ → Option (Res (List ℚ))
  | 0, _, _, _ => none
  | fuel + 1, fd, numValues, ele =>
    match scanDouble fd with
    | .eof => some (.ret ele)
    | .fail fd1 => fillLoop fuel fd1 ((numValues + 1) % 2 ^ 32) ele
    | .item v fd1 =>
      if numValues < ele.length then
        fillLoop fuel fd1 ((numValues + 1) % 2 ^ 32) (ele.set numValues v)
      else some .undefined

/-- The vector `scaleArr` (lines 529-533): entry `jointIndex` is the angular
factor for a rotation joint and the linear factor for any other joint. -/
def scaleArr (graph : RcsGraph) (linearScaleToSI angularScaleToSI : ℚ) : List ℚ :=
  graph.joints.map fun JNT => if RcsJoint_isRotation JNT then angularScaleToSI else linearScaleToSI

/-- Modelled from the spec: the loop of lines 535-539, `MatNd_eleMulSelf` on each
row view of `data`, "multiply every row element-wise by this vector in place".
The entries of the result, row by row.  The product of a row and a vector of
another length is given no meaning. -/
def scaleRows (data : MatNd) (scale : List ℚ) : List ℚ :=
  (List.range data.m).flatMap fun i =>
    (List.range data.n).map fun j => data.ele.getD (i * data.n + j) 0 * scale.getD j 0

/-- Lines 460-481 of `RcsGraph_createTrajectoryFromBVHFile`, after the keyword
MOTION: `Frames:`, the frame count, `Frame`, `Time:` and the frame time.  The
result is `numFrames`, `frameTime` and the file at `trajPos`. -/
def motionHeader (fd1 : List Token) : Res (Int × ℚ × List Token) :=
  let (buf2, fd2) := scanString "" fd1
  if STRCASEEQ buf2 "Frames:" = false then .abort
  else
    match scanCount fd2 with
    | none => .undefined
    | some (numFrames, fd3) =>
      let (buf4, fd4) := scanString buf2 fd3
      if STRCASEEQ buf4 "Frame" = false then .abort
      else
        let (buf5, fd5) := scanString buf4 fd4
        if STRCASEEQ buf5 "Time:" = false then .abort
        else
          match scanDouble fd5 with
          | .item frameTime fd6 => .ret (numFrames, frameTime, fd6)
          | r => .ret (numFrames, 0, r.rest fd5)

/-- Lines 483-543 of `RcsGraph_createTrajectoryFromBVHFile`: the probe pass,
the two shape checks, the fill pass and the scaling.  The result is the matrix
returned, `none` for the null pointer. -/
def motionData (fuel : Nat) (graph : RcsGraph) (numFrames : Int) (trajPos : List Token)
    (linearScaleToSI angularScaleToSI : ℚ) : Option (Res (Option MatNd)) :=
  match probeLoop fuel trajPos 0 with
  | none => none
  | some count =>
    let numValues := (count + 2 ^ 32 - 1) % 2 ^ 32
    if toUnsigned numFrames = 0 then some .undefined
    else if numValues % toUnsigned numFrames ≠ 0 then some (.ret none)
    else
      let data := MatNd_create (toUnsigned numFrames)
        (toUnsigned (Int.tdiv (toSigned numValues) numFrames))
      if (graph.dof * toUnsigned numFrames) % 2 ^ 32 ≠ numValues then some .abort
      else
        andThen (fillLoop fuel trajPos 0 data.ele) fun ele =>
          let filled : MatNd := { data with ele := ele }
          let scale := scaleArr graph linearScaleToSI angularScaleToSI
          if 0 < data.m ∧ data.n ≠ graph.dof then some .undefined
          else some (.ret (some { data with ele := scaleRows filled scale }))

/-- The function `RcsGraph_createTrajectoryFromBVHFile`, given `fuel`
iterations for each of its two scanning loops.  `file` is `none` when the file
cannot be opened.  The result is the matrix returned (`none` is the null
pointer) and the value stored through `dt`, if one was. -/
def RcsGraph_createTrajectoryFromBVHFile (fuel : Nat) (graph : RcsGraph)
    (file : Option (List Token)) (linearScaleToSI angularScaleToSI : ℚ) :
    Option (Res (Option MatNd × Option ℚ)) :=
  match file with
  | none => some (.ret (none, none))
  | some fd =>
    match findKeyword "MOTION" fd with
    | (false, _) => some (.ret (none, none))
    | (true, fd1) =>
      match motionHeader fd1 with
      | .abort => some .abort
      | .undefined => some .undefined
      | .ret (numFrames, frameTime, trajPos) =>
        andThen (motionData fuel graph numFrames trajPos linearScaleToSI angularScaleToSI)
          fun data => some (.ret (data, some frameTime))

/-! ## Well-formed hierarchies

The grammar of the hierarchy section: a block is a name, an optional OFFSET,
CHANNELS blocks, nested JOINT blocks and an optional End Site. -/

/-- A number literal of the file. -/
inductive Number where
  | int (text : String) (n : Int)
  | real (text : String) (q : ℚ)

def Number.token : Number → Token
  | .int t n => .int t n
  | .real t q => .real t q

/-- The value a `%lf` conversion reads from the literal. -/
def Number.val : Number → ℚ
  | .int _ n => (n : ℚ)
  | .real _ q => q

/-- The six channel labels. -/
inductive Label where
  | Xposition
  | Yposition
  | Zposition
  | Xrotation
  | Yrotation
  | Zrotation
  deriving DecidableEq

def Label.text : Label → String
  | .Xposition => "Xposition"
  | .Yposition => "Yposition"
  | .Zposition => "Zposition"
  | .Xrotation => "Xrotation"
  | .Yrotation => "Yrotation"
  | .Zrotation => "Zrotation"

abbrev Offset := Number × Number × Number

/-- The vector `x y z` of an OFFSET, as `%lf` stores it: each component is the
double nearest to its literal. -/
def Offset.vec (o : Offset) : Vec3 :=
  (Double.round o.1.val, Double.round o.2.1.val, Double.round o.2.2.val)

mutual
/-- A `ROOT` or `JOINT` block: `name { [OFFSET] CHANNELS* JOINT* [End Site] }`. -/
inductive Block where
  | mk (name : String) (offset : Option Offset) (channels : List (List Label))
      (joints : Blocks) (endSite : Option Offset)
/-- The nested `JOINT` blocks of a block, in file order. -/
inductive Blocks where
  | nil
  | cons (b : Block) (bs : Blocks)
end

def offsetTokens (o : Offset) : List Token :=
  [.word "OFFSET", o.1.token, o.2.1.token, o.2.2.token]

def optOffsetTokens : Option Offset → List Token
  | none => []
  | some o => offsetTokens o

/-- The tokens of `CHANNELS n label1 ... labeln`. -/
def channelsTokens (ls : List Label) : List Token :=
  .word "CHANNELS" :: .int (toString ls.length) ls.length :: ls.map fun l => .word l.text

/-- The tokens of `End Site { OFFSET x y z }`. -/
def endTokens : Option Offset → List Token
  | none => []
  | some o => [.word "End", .word "Site", .word "\x7b"] ++ offsetTokens o ++ [.word "\x7d"]

mutual
/-- The tokens of a block, from its name to its closing brace. -/
def Block.tokens : Block → List Token
  | .mk name offset channels joints endSite =>
    .word name :: .word "\x7b" ::
      (optOffsetTokens offset ++ (channels.flatMap channelsTokens ++
        (joints.tokens ++ (endTokens endSite ++ [.word "\x7d"]))))
/-- The tokens of a sequence of `JOINT` blocks. -/
def Blocks.tokens : Blocks → List Token
  | .nil => []
  | .cons b bs => .word "JOINT" :: (b.tokens ++ bs.tokens)
end

/-- The tokens of a hierarchy section with root block `root`. -/
def hierarchyTokens (root : Block) : List Token :=
  .word "HIERARCHY" :: .word "ROOT" :: root.tokens

mutual
/-- Number of `ROOT`/`JOINT` blocks in a block, itself included. -/
def Block.size : Block → Nat
  | .mk _ _ _ joints _ => 1 + joints.size
def Blocks.size : Blocks → Nat
  | .nil => 0
  | .cons b bs => b.size + bs.size
end

mutual
/-- Every block name is at most 63 characters long, as `%63s` delivers it. -/
def Block.namesFit : Block → Bool
  | .mk name _ _ joints _ => decide (name.length ≤ 63) && joints.namesFit
def Blocks.namesFit : Blocks → Bool
  | .nil => true
  | .cons b bs => b.namesFit && bs.namesFit
end

mutual
/-- The blocks in file order. The block that is the `k`-th of the whole file
(counting from `idx`) is listed as its name and the position of the block that
directly encloses it (`parent` for the outermost one). -/
def Block.nesting (parent : Option Nat) (idx : Nat) : Block → List (String × Option Nat)
  | .mk name _ _ joints _ => (name, parent) :: joints.nesting (some idx) (idx + 1)
def Blocks.nesting (parent : Option Nat) (idx : Nat) : Blocks → List (String × Option Nat)
  | .nil => []
  | .cons b bs => b.nesting parent idx ++ bs.nesting parent (idx + b.size)
end

/-- The motion type of a label. -/
def Label.jointType : Label → RcsJointType
  | .Xposition => .RCSJOINT_TRANS_X
  | .Yposition => .RCSJOINT_TRANS_Y
  | .Zposition => .RCSJOINT_TRANS_Z
  | .Xrotation => .RCSJOINT_ROT_X
  | .Yrotation => .RCSJOINT_ROT_Y
  | .Zrotation => .RCSJOINT_ROT_Z

/-- The axis index of a label. -/
def Label.axis : Label → Nat
  | .Xposition | .Xrotation => 0
  | .Yposition | .Yrotation => 1
  | .Zposition | .Zrotation => 2

/-- The upper end of the range of a label. -/
def Label.range : Label → ℚ
  | .Xposition | .Yposition | .Zposition => 1
  | .Xrotation | .Yrotation | .Zrotation => M_PI

/-- The joint a channel declares: label `l`, declared as channel `i` of a
CHANNELS block of the body `bodyName` at position `b`, `offset` pending. -/
def Label.joint (bodyName : String) (b : Nat) (offset : Vec3) (i : Nat) (l : Label) : RcsJoint :=
  { name := bodyName ++ "_jnt_" ++ l.text
    body := b
    type := l.jointType
    q_min := -l.range
    q_max := l.range
    dirIdx := l.axis
    A_JP := if i = 0 ∧ Double.lt (.finite 0) (Vec3d_sqrLength offset) then some offset else none
    chan := i }

/-- The joints of one CHANNELS block, from channel `i` on. -/
def channelJoints (bodyName : String) (b : Nat) (offset : Vec3) : Nat → List Label → List RcsJoint
  | _, [] => []
  | i, l :: ls => l.joint bodyName b offset i :: channelJoints bodyName b offset (i + 1) ls

/-- The joints of the CHANNELS blocks of one body: the pending offset is
offered to the first block only. -/
def ownJoints (bodyName : String) (b : Nat) : Vec3 → List (List Label) → List RcsJoint
  | _, [] => []
  | offset, ls :: cs =>
    channelJoints bodyName b offset 0 ls ++ ownJoints bodyName b Vec3d_zeroVec cs

/-- The pending offset a block's first CHANNELS block is entered with. -/
def pendingOffset (linearScaleToSI : Double) : Option Offset → Vec3
  | none => Vec3d_zeroVec
  | some o => Vec3d_constMul o.vec linearScaleToSI

mutual
/-- The joints a block declares, in file order; `idx` is the position of the
block among the blocks of the file. -/
def Block.joints (linearScaleToSI : Double) (idx : Nat) : Block → List RcsJoint
  | .mk name offset channels joints _ =>
    ownJoints name idx (pendingOffset linearScaleToSI offset) channels ++
      joints.joints linearScaleToSI (idx + 1)
def Blocks.joints (linearScaleToSI : Double) (idx : Nat) : Blocks → List RcsJoint
  | .nil => []
  | .cons b bs => b.joints linearScaleToSI idx ++ bs.joints linearScaleToSI (idx + b.size)
end

mutual
/-- The channels a block declares, in file order, each with the position of
the block that declares it (`idx` for the outermost block). -/
def Block.declared (idx : Nat) : Block → List (Nat × Label)
  | .mk _ _ channels joints _ =>
    (channels.flatten.map fun l => (idx, l)) ++ joints.declared (idx + 1)
def Blocks.declared (idx : Nat) : Blocks → List (Nat × Label)
  | .nil => []
  | .cons b bs => b.declared idx ++ bs.declared (idx + b.size)
end

/-- A hierarchy used to instantiate the theorems: `Hips` with an OFFSET, two
CHANNELS blocks, the child `Spine` (OFFSET, CHANNELS, End Site) and the empty
child `Leg`. -/
def sampleRoot : Block :=
  .mk "Hips" (some (.int "0" 0, .real "1.5" (3 / 2), .int "0" 0))
    [[.Xposition, .Yposition, .Zposition], [.Zrotation, .Xrotation, .Yrotation]]
    (.cons (.mk "Spine" (some (.int "0" 0, .int "5" 5, .int "0" 0)) [[.Zrotation]] .nil
        (some (.int "0" 0, .int "2" 2, .int "0" 0)))
      (.cons (.mk "Leg" none [] .nil none) .nil))
    none

/-- The value of a number literal, `none` for a run that is no number. -/
def Token.value : Token → Option ℚ
  | .word _ => none
  | .int _ n => some (n : ℚ)
  | .real _ q => some q
  | .stub _ _ => none

/-- The parser state in which `toks` is still to be read, its first token
being in `buf`. -/
def enter (g : RcsGraph) : List Token → St
  | [] => { buf := "", self := g, fd := [] }
  | t :: ts => { buf := t.text, self := g, fd := ts }

/-- Name and parent of every body, in insertion order. -/
def RcsGraph.nesting (g : RcsGraph) : List (String × Option Nat) :=
  g.bodies.map fun b => (b.name, b.parent)

/-- The graph `g1` is `g` with the bodies `bs` and the joints `js` appended. -/
def Ext (g g1 : RcsGraph) (bs : List (String × Option Nat)) (js : List RcsJoint) : Prop :=
  g1.nesting = g.nesting ++ bs ∧ g1.joints = g.joints ++ js

/-- The body at position `b` of `g` is named `nm`. -/
def HasName (g : RcsGraph) (b : Nat) (nm : String) : Prop :=
  ∃ p, g.nesting[b]? = some (nm, p)

/-- With the body `b` (named `nm`) current, the parser reads the tokens `toks`
and the closing brace after them, stops there and has appended the bodies
`B k` and joints `J k` to a graph that had `k` bodies. -/
def Parses (s : Double) (z : Bool) (b : Nat) (nm : String) (toks rest : List Token)
    (B : Nat → List (String × Option Nat)) (J : Nat → List RcsJoint) : Prop :=
  ∀ (g : RcsGraph) (off : Vec3) (fuel : Nat), toks.length + 1 ≤ fuel → HasName g b nm →
    ∃ g1, parseRecursive s z fuel (enter g (toks ++ Token.word "\x7d" :: rest)) (some b) off =
        some (.ret (true, { buf := "\x7d", self := g1, fd := rest })) ∧
      Ext g g1 (B g.bodies.length) (J g.bodies.length)

/-- The graph `RcsGraph_createFromBVHFile` starts the recursion with. -/
def initialBodies (z : Bool) : List (String × Option Nat) :=
  if z then [("BVHROOT", none)] else []

/-- A graph used to instantiate the theorems: the body `r` with a translation
joint and a rotation joint. -/
def sampleGraph : RcsGraph :=
  { bodies := [{ name := "r", parent := none, A_BP := false, shapes := [] }]
    joints := [Label.joint "r" 0 Vec3d_zeroVec 0 .Xposition,
               Label.joint "r" 0 Vec3d_zeroVec 1 .Yrotation] }

/-- A motion section used to instantiate the theorems: two frames of two
values. -/
def sampleMotion : List Token :=
  [.word "MOTION", .word "Frames:", .int "2" 2, .word "Frame", .word "Time:",
    .real "0.5" (1 / 2), .int "1" 1, .int "2" 2, .int "3" 3, .int "4" 4]

/-- The tokens of a motion section after the keyword MOTION: `Frames: F Frame
Time: t` and the values `vals`. -/
def motionSection (tx : String) (F : Int) (t : Number) (vals : List Number) : List Token :=
  [.word "Frames:", .int tx F, .word "Frame", .word "Time:", t.token] ++ vals.map Number.token

/-- The spec's example of a shape mismatch: `Frames: 3` and ten values. -/
def tenValues : List Number :=
  [.int "1" 1, .int "2" 2, .int "3" 3, .int "4" 4, .int "5" 5, .int "6" 6, .int "7" 7,
    .int "8" 8, .int "9" 9, .int "10" 10]

/-- The local origins of the joints of one body, by the rule of the spec read
in double arithmetic: when an OFFSET `v` is immediately followed by a CHANNELS
block with at least one label, the first joint of that block has the local
origin `v * linearScale` (each product rounded to a double) when the squared
length of that vector, as `Vec3d_sqrLength` computes it, is positive, and its
other joints have none; the joints of every later CHANNELS block of the body
have none; without an OFFSET no joint has one. -/
def bodyOrigins (linearScaleToSI : Double) :
    Option Offset → List (List Label) → List (Option Vec3)
  | _, [] => []
  | some v, (_ :: others) :: later =>
    (if Double.lt (.finite 0) (Vec3d_sqrLength (Vec3d_constMul v.vec linearScaleToSI))
      then some (Vec3d_constMul v.vec linearScaleToSI) else none) ::
      (others.map (fun _ => none) ++ later.flatten.map fun _ => none)
  | _, first :: later => first.map (fun _ => none) ++ later.flatten.map fun _ => none

mutual
/-- The local origins of the joints of a hierarchy, in file order. -/
def Block.origins (linearScaleToSI : Double) : Block → List (Option Vec3)
  | .mk _ offset channels joints _ =>
    bodyOrigins linearScaleToSI offset channels ++ joints.origins linearScaleToSI
def Blocks.origins (linearScaleToSI : Double) : Blocks → List (Option Vec3)
  | .nil => []
  | .cons b bs => b.origins linearScaleToSI ++ bs.origins linearScaleToSI
end

/-- The claim C8 makes of a graph: no body has two joints that received a
pending offset as their local origin. -/
def oneOriginPerBody (g : RcsGraph) : Prop :=
  ∀ j1 ∈ g.joints, ∀ j2 ∈ g.joints,
    j1.body = j2.body → j1.A_JP ≠ none → j2.A_JP ≠ none → j1 = j2

/-- Every joint with a local origin was created as channel 0 of its CHANNELS
block. -/
def originsAreFirstChannels (g : RcsGraph) : Prop :=
  ∀ j ∈ g.joints, j.A_JP ≠ none → j.chan = 0

/-- A hierarchy in which both CHANNELS blocks of the body `r` directly follow an
OFFSET. -/
def twoOffsets : List Token :=
  [.word "HIERARCHY", .word "ROOT", .word "r", .word "\x7b",
    .word "OFFSET", .int "1" 1, .int "2" 2, .int "3" 3, .word "CHANNELS", .int "1" 1,
    .word "Xposition",
    .word "OFFSET", .int "4" 4, .int "5" 5, .int "6" 6, .word "CHANNELS", .int "1" 1,
    .word "Yposition", .word "\x7d"]

/-- The graph `RcsGraph_createFromBVHFile` builds from `twoOffsets`. -/
def twoOffsetsGraph : RcsGraph :=
  { bodies := [{ name := "r", parent := none, A_BP := false, shapes := [.RCSSHAPE_REFFRAME] }]
    joints := [{ name := "r_jnt_Xposition", body := 0, type := .RCSJOINT_TRANS_X, q_min := -1,
                 q_max := 1, dirIdx := 0, A_JP := some (.finite 1, .finite 2, .finite 3), chan := 0 },
               { name := "r_jnt_Yposition", body := 0, type := .RCSJOINT_TRANS_Y, q_min := -1,
                 q_max := 1, dirIdx := 1, A_JP := some (.finite 4, .finite 5, .finite 6), chan := 0 }] }

/-- The Channel Mapper table in the words of the spec: motion type, axis
index, `q_min` and `q_max` of each label. -/
def channelTable : Label → RcsJointType × Nat × ℚ × ℚ
  | .Xposition => (.RCSJOINT_TRANS_X, 0, -1, 1)
  | .Yposition => (.RCSJOINT_TRANS_Y, 1, -1, 1)
  | .Zposition => (.RCSJOINT_TRANS_Z, 2, -1, 1)
  | .Xrotation => (.RCSJOINT_ROT_X, 0, -M_PI, M_PI)
  | .Yrotation => (.RCSJOINT_ROT_Y, 1, -M_PI, M_PI)
  | .Zrotation => (.RCSJOINT_ROT_Z, 2, -M_PI, M_PI)

/-- Six values: with `Frames: 2` they make three columns. -/
def sixValues : List Number :=
  [.int "1" 1, .int "2" 2, .int "3" 3, .int "4" 4, .int "5" 5, .int "6" 6]

/-- The token in `buf` is none of the keywords ROOT, OFFSET, CHANNELS, JOINT,
End (case ignored) and none of the terminals `}`, MOTION, Frames:, Frame. -/
def unrecognised (buf : String) : Bool :=
  !STRCASEEQ buf "ROOT" && !STRCASEEQ buf "OFFSET" && !STRCASEEQ buf "CHANNELS" &&
    !STRCASEEQ buf "JOINT" && !STRCASEEQ buf "End" && !STREQ buf "\x7d" &&
    !STREQ buf "MOTION" && !STREQ buf "Frames:" && !STREQ buf "Frame"

/-- A hierarchy whose JOINT block has no closing brace: the nested parse stops
on the terminal MOTION. -/
def missingBrace : List Token :=
  [.word "HIERARCHY", .word "ROOT", .word "r", .word "\x7b", .word "JOINT", .word "a",
    .word "\x7b", .word "MOTION", .word "Frames:", .int "2" 2, .word "Frame", .word "Time:",
    .int "1" 1]

/-- The tokens of a motion section whose frame count is missing: `Frames: Frame
Time: t` and the values `vals`. -/
def motionSectionNoCount (t : Number) (vals : List Number) : List Token :=
  [.word "Frames:", .word "Frame", .word "Time:", t.token] ++ vals.map Number.token

/-- A body name of 63 characters. -/
def longBodyName : String := String.mk (List.replicate 63 'a')

/-- A label token of 63 characters. -/
def longLabel : String := String.mk (List.replicate 63 'b')

/-- A run in which the conversion `%lf` cannot start: a failed conversion
leaves it in the file. -/
def Token.isWord : Token → Bool
  | .word _ => true
  | _ => false

/-- The double `d` is at least the rational `c`: a finite value that is, or the
positive infinity. -/
def Double.atLeast (c : ℚ) : Double → Prop
  | .finite r => c ≤ r
  | .inf neg => neg = false
  | .nan => False

/-- A root block whose offset is tiny: `r { OFFSET 1e-200 0 0 CHANNELS 1
Xposition }`. -/
def tinyOffset : Block :=
  .mk "r" (some (.real "1e-200" (1 / 10 ^ 200), .int "0" 0, .int "0" 0)) [[.Xposition]] .nil none

/-- The root block of the spec's example: `r { OFFSET 1 2 3 CHANNELS 1
Xposition }`. -/
def unitOffset : Block :=
  .mk "r" (some (.int "1" 1, .int "2" 2, .int "3" 3)) [[.Xposition]] .nil none

/-! ## The parser on well-formed hierarchies -/

theorem nextToken_cons (buf : String) (g : RcsGraph) (t : Token) (ts : List Token) :
    nextToken { buf := buf, self := g, fd := t :: ts } = enter g (t :: ts) := rfl

theorem nextToken_append (buf : String) (g : RcsGraph) (xs : List Token) (t : Token)
    (ts : List Token) :
    nextToken { buf := buf, self := g, fd := xs ++ t :: ts } = enter g (xs ++ t :: ts) := by
  cases xs <;> rfl

theorem nesting_insertBody (g : RcsGraph) (p : Option Nat) (nm : String) (a : Bool) :
    (RcsGraph_insertBody g p nm a).nesting = g.nesting ++ [(nm, p)] := by
  simp [RcsGraph_insertBody, RcsGraph.nesting]

theorem nesting_addShape (g : RcsGraph) (b : Nat) (sh : RcsShapeType) :
    (RcsBody_addShape g b sh).nesting = g.nesting := by
  simp only [RcsBody_addShape, RcsGraph.nesting, List.map_map]
  have : ((fun b : RcsBody => (b.name, b.parent)) ∘ fun ib : Nat × RcsBody =>
      if ib.1 = b then { ib.2 with shapes := ib.2.shapes ++ [sh] } else ib.2) =
      (fun b : RcsBody => (b.name, b.parent)) ∘ Prod.snd := by
    funext ib
    by_cases h : ib.1 = b <;> simp [h]
  rw [this, ← List.map_map, List.enum_map_snd]

theorem nesting_addGeometry (g : RcsGraph) : (addGeometry g).nesting = g.nesting := by
  simp only [addGeometry, RcsGraph.nesting, List.map_map]
  have : ((fun b : RcsBody => (b.name, b.parent)) ∘ fun ib : Nat × RcsBody =>
      { ib.2 with shapes := ib.2.shapes ++
          ((g.bodies.filter fun c => c.parent = some ib.1).flatMap
            (fun _ => [RcsShapeType.RCSSHAPE_BOX, RcsShapeType.RCSSHAPE_SPHERE])) }) =
      (fun b : RcsBody => (b.name, b.parent)) ∘ Prod.snd := by
    funext ib
    rfl
  rw [this, ← List.map_map, List.enum_map_snd]

theorem length_nesting (g : RcsGraph) : g.nesting.length = g.bodies.length := by
  simp [RcsGraph.nesting]

theorem Ext.length {g g1 : RcsGraph} {bs js} (h : Ext g g1 bs js) :
    g1.bodies.length = g.bodies.length + bs.length := by
  have := congrArg List.length h.1
  simpa [length_nesting] using this

theorem Ext.hasName {g g1 : RcsGraph} {bs js} (h : Ext g g1 bs js) {b : Nat} {nm : String}
    (hb : HasName g b nm) : HasName g1 b nm := by
  obtain ⟨p, hp⟩ := hb
  refine ⟨p, ?_⟩
  rw [h.1]
  have hlt : b < g.nesting.length := by
    by_contra hc
    rw [List.getElem?_eq_none (by omega)] at hp
    cases hp
  rw [List.getElem?_append_left hlt]
  exact hp

theorem Ext.trans {g g1 g2 : RcsGraph} {bs js bs1 js1} (h : Ext g g1 bs js)
    (h1 : Ext g1 g2 bs1 js1) : Ext g g2 (bs ++ bs1) (js ++ js1) := by
  refine ⟨?_, ?_⟩
  · rw [h1.1, h.1, List.append_assoc]
  · rw [h1.2, h.2, List.append_assoc]

theorem HasName.lookup {g : RcsGraph} {b : Nat} {nm : String} (h : HasName g b nm) :
    ∃ bd, g.bodies[b]? = some bd ∧ bd.name = nm := by
  obtain ⟨p, hp⟩ := h
  simp only [RcsGraph.nesting, List.getElem?_map, Option.map_eq_some'] at hp
  obtain ⟨bd, hbd, heq⟩ := hp
  exact ⟨bd, hbd, congrArg Prod.fst heq⟩

theorem scanDouble_number (x : Number) (fd : List Token) :
    scanDouble (x.token :: fd) = .item x.val fd := by
  cases x <;> rfl

theorem scanOne_number (x : Number) (fd : List Token) :
    scanOne (x.token :: fd) = (some x.val, fd) := by
  simp [scanOne, scanDouble_number]

theorem scanVec3_offset (o : Offset) (fd : List Token) :
    scanVec3 (o.1.token :: o.2.1.token :: o.2.2.token :: fd) = (some o.vec, fd) := by
  simp [scanVec3, scanDouble_number, Offset.vec]

theorem channelOf_label (l : Label) (nm : String) (b : Nat) (off : Vec3) (i : Nat) :
    channelOf l.text = some ((l.joint nm b off i).type, (l.joint nm b off i).q_min,
      (l.joint nm b off i).q_max, (l.joint nm b off i).dirIdx) := by
  cases l <;> rfl

theorem length_label (l : Label) : l.text.length = 9 := by
  cases l <;> rfl

/-- The CHANNELS loop over valid labels inserts one joint per label. -/
theorem channelsLoop_labels (b : Nat) (nm : String) (off : Vec3) (hnm : nm.length ≤ 63) :
    ∀ (ls : List Label) (i : Nat) (buf : String) (g : RcsGraph) (fd : List Token),
      HasName g b nm →
      ∃ buf1, channelsLoop (some b) off ls.length i
          { buf := buf, self := g, fd := (ls.map fun l => Token.word l.text) ++ fd } =
        .ret (.next { buf := buf1,
                      self := { bodies := g.bodies,
                                joints := g.joints ++ channelJoints nm b off i ls },
                      fd := fd }) := by
  intro ls
  induction ls with
  | nil =>
    intro i buf g fd _
    exact ⟨buf, by simp [channelsLoop, channelJoints]⟩
  | cons l ls ih =>
    intro i buf g fd hb
    obtain ⟨bd, hbd, hname⟩ := hb.lookup
    have hb1 : HasName (RcsGraph_insertJoint g (l.joint nm b off i)) b nm := hb
    obtain ⟨buf1, h1⟩ := ih (i + 1) l.text (RcsGraph_insertJoint g (l.joint nm b off i)) fd hb1
    refine ⟨buf1, ?_⟩
    have hsize : ¬ 128 < jointNameSize nm l.text := by
      simp only [jointNameSize, length_label]
      omega
    simp only [List.map_cons, List.cons_append, List.length_cons, channelsLoop, nextToken,
      scanString, Token.text, hbd, hname, hsize, if_false, channelOf_label l nm b off i]
    have hj : RcsJoint.mk (nm ++ "_jnt_" ++ l.text) b (l.joint nm b off i).type
        (l.joint nm b off i).q_min (l.joint nm b off i).q_max (l.joint nm b off i).dirIdx
        (if i = 0 ∧ Double.lt (.finite 0) (Vec3d_sqrLength off) then some off else none) i = l.joint nm b off i := rfl
    rw [hj, h1]
    simp [RcsGraph_insertJoint, channelJoints]

theorem parse_close (s : Double) (z : Bool) (n : Nat) (g : RcsGraph) (fd : List Token)
    (body : Option Nat) (off : Vec3) :
    parseRecursive s z (n + 1) { buf := "\x7d", self := g, fd := fd } body off =
      some (.ret (true, { buf := "\x7d", self := g, fd := fd })) := rfl

theorem tailCheck_close (call : St → Option Nat → Vec3 → Option (Res (Bool × St)))
    (g : RcsGraph) (fd : List Token) (body : Option Nat) :
    tailCheck call { buf := "\x7d", self := g, fd := fd } body =
      some (.ret (true, { buf := "\x7d", self := g, fd := fd })) := rfl

theorem Ext.refl (g : RcsGraph) : Ext g g [] [] := by
  simp [Ext]

/-- The tokens `End Site { OFFSET x y z }`, or nothing, before the closing brace. -/
theorem end_parses (s : Double) (z : Bool) (b : Nat) (nm : String) (es : Option Offset)
    (rest : List Token) :
    Parses s z b nm (endTokens es) rest (fun _ => []) (fun _ => []) := by
  intro g off fuel hfuel hb
  cases es with
  | none =>
    obtain ⟨n, rfl⟩ : ∃ n, fuel = n + 1 := ⟨fuel - 1, by omega⟩
    exact ⟨g, rfl, Ext.refl g⟩
  | some o =>
    obtain ⟨n, rfl⟩ : ∃ n, fuel = n + 2 := by
      simp [endTokens, offsetTokens] at hfuel
      exact ⟨fuel - 2, by omega⟩
    refine ⟨RcsBody_addShape g b .RCSSHAPE_SPHERE, ?_, ?_⟩
    · simp +decide [parseRecursive, parseBody, endTokens, offsetTokens, enter, nextToken,
        scanString, scanOne_number, Token.text, tailCheck, andThen, discard, STREQ]
    · exact ⟨by simp [nesting_addShape], by simp [RcsBody_addShape]⟩

theorem scanCount_int (t : String) (n : Int) (fd : List Token) :
    scanCount (Token.int t n :: fd) = some (n, fd) := rfl

theorem tailCheck_parses_tail (s : Double) (z : Bool) (n : Nat) (st st1 : St) (body : Option Nat)
    (h : parseRecursive s z n st body Vec3d_zeroVec = some (.ret (true, st1))) :
    tailCheck (parseRecursive s z n) st body = some (.ret (true, st1)) := by
  cases n with
  | zero => simp [parseRecursive] at h
  | succ n =>
    unfold tailCheck
    by_cases h1 : STREQ st.buf "\x7d" = true
    · have hbuf : st.buf = "\x7d" := by simpa [STREQ] using h1
      have hst : st = { buf := "\x7d", self := st.self, fd := st.fd } := by rw [← hbuf]
      rw [hst, parse_close] at h
      rw [if_pos h1]
      rw [hst]
      exact h
    · rw [if_neg h1]
      by_cases h2 : STREQ st.buf "MOTION" = true
      · have hbuf : st.buf = "MOTION" := by simpa [STREQ] using h2
        have hst : st = { buf := "MOTION", self := st.self, fd := st.fd } := by rw [← hbuf]
        rw [if_pos h2]
        rw [hst] at h ⊢
        exact h
      · rw [if_neg h2]
        by_cases h3 : STREQ st.buf "Frames:" = true
        · have hbuf : st.buf = "Frames:" := by simpa [STREQ] using h3
          have hst : st = { buf := "Frames:", self := st.self, fd := st.fd } := by rw [← hbuf]
          rw [if_pos h3]
          rw [hst] at h ⊢
          exact h
        · rw [if_neg h3]
          by_cases h4 : STREQ st.buf "Frame" = true
          · have hbuf : st.buf = "Frame" := by simpa [STREQ] using h4
            have hst : st = { buf := "Frame", self := st.self, fd := st.fd } := by rw [← hbuf]
            rw [if_pos h4]
            rw [hst] at h ⊢
            exact h
          · rw [if_neg h4, h]
            rfl

/-- The CHANNELS blocks of a body, followed by tokens the parser reads as
`hT` says. -/
theorem chans_parses (s : Double) (z : Bool) (b : Nat) (nm : String) (hnm : nm.length ≤ 63)
    (T rest : List Token) (B : Nat → List (String × Option Nat)) (J : Nat → List RcsJoint)
    (hT : Parses s z b nm T rest B J) :
    ∀ (chans : List (List Label)) (off : Vec3) (g : RcsGraph) (fuel : Nat),
      (chans.flatMap channelsTokens ++ T).length + 1 ≤ fuel → HasName g b nm →
      ∃ g1, parseRecursive s z fuel
          (enter g (chans.flatMap channelsTokens ++ (T ++ Token.word "\x7d" :: rest)))
          (some b) off =
          some (.ret (true, { buf := "\x7d", self := g1, fd := rest })) ∧
        Ext g g1 (B g.bodies.length) (ownJoints nm b off chans ++ J g.bodies.length) := by
  intro chans
  induction chans with
  | nil =>
    intro off g fuel hfuel hb
    simpa [ownJoints] using hT g off fuel (by simpa using hfuel) hb
  | cons ls cs ih =>
    intro off g fuel hfuel hb
    obtain ⟨n, rfl⟩ : ∃ n, fuel = n + 1 := ⟨fuel - 1, by omega⟩
    obtain ⟨buf1, hloop⟩ := channelsLoop_labels b nm off hnm ls 0 "CHANNELS" g
      (cs.flatMap channelsTokens ++ (T ++ Token.word "\x7d" :: rest)) hb
    have hb1 : HasName { bodies := g.bodies, joints := g.joints ++ channelJoints nm b off 0 ls }
        b nm := hb
    obtain ⟨g1, hparse, hext⟩ := ih Vec3d_zeroVec
      { bodies := g.bodies, joints := g.joints ++ channelJoints nm b off 0 ls } n
      (by
        simp only [List.flatMap_cons, channelsTokens, List.length_append, List.length_cons,
          List.length_map] at hfuel ⊢
        omega) hb1
    refine ⟨g1, ?_, ?_⟩
    · simp only [List.flatMap_cons, channelsTokens, List.cons_append, List.append_assoc, enter,
        parseRecursive, parseBody, Token.text, scanCount_int, Int.toNat_ofNat]
      simp +decide only [if_true, if_false]
      rw [hloop]
      simp only []
      have hnext : ∀ g2 : RcsGraph, nextToken (St.mk buf1 g2
            (cs.flatMap channelsTokens ++ (T ++ Token.word "\x7d" :: rest))) =
          enter g2 (cs.flatMap channelsTokens ++ (T ++ Token.word "\x7d" :: rest)) := by
        intro g2
        rw [← List.append_assoc]
        exact nextToken_append _ _ _ _ _
      rw [hnext]
      rw [hparse]
      rfl
    · obtain ⟨h1, h2⟩ := hext
      exact ⟨h1, by simp [h2, ownJoints, List.append_assoc]⟩

/-- The contents of a block after its opening brace: optional OFFSET, the
CHANNELS blocks, then tokens the parser reads as `hK` says. -/
theorem content_parses (s : Double) (z : Bool) (b : Nat) (nm : String) (hnm : nm.length ≤ 63)
    (K rest : List Token) (B : Nat → List (String × Option Nat)) (J : Nat → List RcsJoint)
    (hK : Parses s z b nm K rest B J) (off : Option Offset) (chans : List (List Label))
    (g : RcsGraph) (fuel : Nat)
    (hfuel : (optOffsetTokens off ++ (chans.flatMap channelsTokens ++ K)).length + 1 ≤ fuel)
    (hb : HasName g b nm) :
    ∃ g1, parseRecursive s z fuel
        (enter g (optOffsetTokens off ++ (chans.flatMap channelsTokens ++
          (K ++ Token.word "\x7d" :: rest)))) (some b) Vec3d_zeroVec =
        some (.ret (true, { buf := "\x7d", self := g1, fd := rest })) ∧
      Ext g g1 (B g.bodies.length)
        (ownJoints nm b (pendingOffset s off) chans ++ J g.bodies.length) := by
  cases off with
  | none =>
    exact chans_parses s z b nm hnm K rest B J hK chans Vec3d_zeroVec g fuel
      (by simpa [optOffsetTokens] using hfuel) hb
  | some o =>
    obtain ⟨n, rfl⟩ : ∃ n, fuel = n + 1 := ⟨fuel - 1, by omega⟩
    obtain ⟨g1, hparse, hext⟩ := chans_parses s z b nm hnm K rest B J hK chans
      (Vec3d_constMul o.vec s) g n
      (by
        simp only [optOffsetTokens, offsetTokens, List.length_append, List.length_cons,
          List.length_nil] at hfuel ⊢
        omega) hb
    refine ⟨g1, ?_, hext⟩
    have hnext : nextToken (St.mk "OFFSET" g
          (chans.flatMap channelsTokens ++ (K ++ Token.word "\x7d" :: rest))) =
        enter g (chans.flatMap channelsTokens ++ (K ++ Token.word "\x7d" :: rest)) := by
      rw [← List.append_assoc]
      exact nextToken_append _ _ _ _ _
    simp only [optOffsetTokens, offsetTokens, List.cons_append, List.nil_append, enter,
      parseRecursive, parseBody, Token.text, scanVec3_offset]
    simp +decide only [if_true, if_false]
    rw [hnext, hparse]
    rfl

theorem namesFit_cons {blk : Block} {bs : Blocks} (h : (Blocks.cons blk bs).namesFit = true) :
    blk.namesFit = true ∧ bs.namesFit = true := by
  simpa [Blocks.namesFit] using h

theorem namesFit_mk {nm : String} {off : Option Offset} {chans : List (List Label)}
    {kids : Blocks} {es : Option Offset} (h : (Block.mk nm off chans kids es).namesFit = true) :
    nm.length ≤ 63 ∧ kids.namesFit = true := by
  simpa [Block.namesFit] using h

mutual

theorem length_nesting_block (p : Option Nat) (i : Nat) :
    ∀ blk : Block, (blk.nesting p i).length = blk.size
  | .mk nm off chans kids es => by
    simp [Block.nesting, Block.size, length_nesting_blocks (some i) (i + 1) kids]
    omega

theorem length_nesting_blocks (p : Option Nat) (i : Nat) :
    ∀ bs : Blocks, (bs.nesting p i).length = bs.size
  | .nil => by simp [Blocks.nesting, Blocks.size]
  | .cons blk bs => by
    simp [Blocks.nesting, Blocks.size, length_nesting_block p i blk,
      length_nesting_blocks p (i + blk.size) bs]
end

/-- The nested JOINT blocks of a body and its End Site. -/
theorem joints_parses (s : Double) (z : Bool) :
    ∀ (kids : Blocks) (es : Option Offset) (b : Nat) (nm : String) (rest : List Token),
      kids.namesFit = true →
      Parses s z b nm (kids.tokens ++ endTokens es) rest
        (fun k => kids.nesting (some b) k) (fun k => kids.joints s k)
  | .nil, es, b, nm, rest, _ => by
    simpa [Blocks.tokens, Blocks.nesting, Blocks.joints] using end_parses s z b nm es rest
  | .cons (.mk cn coff cchans ckids ces) bs, es, b, nm, rest, hfit => by
    have hfit1 := namesFit_cons hfit
    have hfit2 := namesFit_mk hfit1.1
    intro g off fuel hfuel hb
    obtain ⟨n, rfl⟩ : ∃ n, fuel = n + 1 := ⟨fuel - 1, by omega⟩
    simp only [Blocks.tokens, Block.tokens, List.length_append, List.length_cons,
      List.length_nil] at hfuel
    -- the child's body
    have hc : HasName (RcsGraph_insertBody g (some b) cn false) g.bodies.length cn := by
      refine ⟨some b, ?_⟩
      rw [nesting_insertBody, List.getElem?_append_right (by simp [length_nesting])]
      simp [length_nesting]
    -- the child's block
    obtain ⟨g2, hparse2, hext2⟩ := content_parses s z g.bodies.length cn hfit2.1
      (ckids.tokens ++ endTokens ces) (bs.tokens ++ (endTokens es ++ Token.word "\x7d" :: rest))
      _ _ (joints_parses s z ckids ces g.bodies.length cn _ hfit2.2) coff cchans
      (RcsGraph_insertBody g (some b) cn false) n
      (by simp only [List.length_append]; omega) hc
    have hlen1 : (RcsGraph_insertBody g (some b) cn false).bodies.length = g.bodies.length + 1 := by
      simp [RcsGraph_insertBody]
    have hb2 : HasName g2 b nm :=
      hext2.hasName (show HasName (RcsGraph_insertBody g (some b) cn false) b nm from
        (show Ext g (RcsGraph_insertBody g (some b) cn false) [(cn, some b)] [] from
          ⟨nesting_insertBody _ _ _ _, by simp [RcsGraph_insertBody]⟩).hasName hb)
    -- the blocks after it
    obtain ⟨g3, hparse3, hext3⟩ := joints_parses s z bs es b nm rest hfit1.2 g2 Vec3d_zeroVec n
      (by simp only [List.length_append]; omega) hb2
    refine ⟨g3, ?_, ?_⟩
    · have hnext : nextToken (St.mk "\x7d" g2
            (bs.tokens ++ (endTokens es ++ Token.word "\x7d" :: rest))) =
          enter g2 (bs.tokens ++ (endTokens es ++ Token.word "\x7d" :: rest)) := by
        rw [← List.append_assoc]
        exact nextToken_append _ _ _ _ _
      have hnext1 : nextToken (St.mk "\x7b" (RcsGraph_insertBody g (some b) cn false)
            (optOffsetTokens coff ++ (cchans.flatMap channelsTokens ++
              (ckids.tokens ++ (endTokens ces ++
                Token.word "\x7d" :: (bs.tokens ++ (endTokens es ++ Token.word "\x7d" :: rest))))))) =
          enter (RcsGraph_insertBody g (some b) cn false)
            (optOffsetTokens coff ++ (cchans.flatMap channelsTokens ++
              (ckids.tokens ++ (endTokens ces ++
                Token.word "\x7d" :: (bs.tokens ++ (endTokens es ++ Token.word "\x7d" :: rest)))))) := by
        rw [← List.append_assoc, ← List.append_assoc, ← List.append_assoc]
        exact nextToken_append _ _ _ _ _
      simp only [List.append_assoc] at hparse2 hparse3
      simp only [Blocks.tokens, Block.tokens, List.cons_append, List.append_assoc, enter,
        parseRecursive, parseBody, Token.text, List.nil_append]
      simp +decide only [if_true, if_false]
      simp only [nextToken, scanString, Token.text]
      simp only [nextToken, scanString, Token.text] at hnext hnext1
      rw [hnext1, hparse2]
      simp only [andThen, if_false]
      rw [hnext]
      exact tailCheck_parses_tail s z n _ _ _ hparse3
    · have h1 : Ext g (RcsGraph_insertBody g (some b) cn false) [(cn, some b)] [] :=
        ⟨nesting_insertBody _ _ _ _, by simp [RcsGraph_insertBody]⟩
      have h := (h1.trans hext2).trans hext3
      have hlen2 : g2.bodies.length = g.bodies.length + (Block.mk cn coff cchans ckids ces).size := by
        rw [hext2.length, hlen1, length_nesting_blocks, Block.size]
        omega
      rw [hlen1] at h
      rw [hlen2] at h
      simpa [Blocks.nesting, Block.nesting, Blocks.joints, Block.joints, pendingOffset,
        List.append_assoc] using h
termination_by kids => sizeOf kids

/-- The ROOT frame on a well-formed root block. -/
theorem root_parses (s : Double) (z : Bool) (root : Block) (rest : List Token)
    (hfit : root.namesFit = true) (g : RcsGraph) (body : Option Nat) (fuel : Nat)
    (hfuel : root.tokens.length ≤ fuel) :
    ∃ g1, parseRecursive s z fuel { buf := "ROOT", self := g, fd := root.tokens ++ rest } body
        Vec3d_zeroVec = some (.ret (true, { buf := "\x7d", self := g1, fd := rest })) ∧
      Ext g g1 (root.nesting body g.bodies.length) (root.joints s g.bodies.length) := by
  obtain ⟨nm, off, chans, kids, es⟩ := root
  have hfit1 := namesFit_mk hfit
  simp only [Block.tokens, List.length_append, List.length_cons, List.length_nil] at hfuel
  obtain ⟨n, rfl⟩ : ∃ n, fuel = n + 1 := ⟨fuel - 1, by omega⟩
  have hc : HasName (RcsGraph_insertBody g body nm z) g.bodies.length nm := by
    refine ⟨body, ?_⟩
    rw [nesting_insertBody, List.getElem?_append_right (by simp [length_nesting])]
    simp [length_nesting]
  obtain ⟨g2, hparse2, hext2⟩ := content_parses s z g.bodies.length nm hfit1.1
    (kids.tokens ++ endTokens es) rest _ _
    (joints_parses s z kids es g.bodies.length nm rest hfit1.2) off chans
    (RcsGraph_insertBody g body nm z) n
    (by simp only [List.length_append]; omega) hc
  have hlen1 : (RcsGraph_insertBody g body nm z).bodies.length = g.bodies.length + 1 := by
    simp [RcsGraph_insertBody]
  refine ⟨g2, ?_, ?_⟩
  · have hnext1 : nextToken (St.mk "\x7b" (RcsGraph_insertBody g body nm z)
          (optOffsetTokens off ++ (chans.flatMap channelsTokens ++
            (kids.tokens ++ (endTokens es ++ Token.word "\x7d" :: rest))))) =
        enter (RcsGraph_insertBody g body nm z)
          (optOffsetTokens off ++ (chans.flatMap channelsTokens ++
            (kids.tokens ++ (endTokens es ++ Token.word "\x7d" :: rest)))) := by
      rw [← List.append_assoc, ← List.append_assoc, ← List.append_assoc]
      exact nextToken_append _ _ _ _ _
    simp only [List.append_assoc] at hparse2
    simp only [Block.tokens, List.cons_append, List.append_assoc, enter,
      parseRecursive, parseBody, Token.text, List.nil_append]
    simp +decide only [if_true, if_false]
    simp only [nextToken, scanString, Token.text]
    simp only [nextToken, scanString, Token.text] at hnext1
    rw [hnext1, hparse2]
    rfl
  · have h1 : Ext g (RcsGraph_insertBody g body nm z) [(nm, body)] [] :=
      ⟨nesting_insertBody _ _ _ _, by simp [RcsGraph_insertBody]⟩
    have h := h1.trans hext2
    rw [hlen1] at h
    simpa [Block.nesting, Block.joints] using h

/-- The whole of `RcsGraph_createFromBVHFile` on a well-formed hierarchy. -/
theorem create_wellFormed (root : Block) (rest : List Token) (s : Double) (z : Bool) (fuel : Nat)
    (hfit : root.namesFit = true) (hfuel : (hierarchyTokens root).length ≤ fuel) :
    ∃ g, RcsGraph_createFromBVHFile fuel (some (hierarchyTokens root ++ rest)) s z =
        some (.ret (some g)) ∧
      g.nesting = initialBodies z ++
        root.nesting (if z then some 0 else none) (if z then 1 else 0) ∧
      g.joints = root.joints s (if z then 1 else 0) := by
  have hfuel1 : root.tokens.length ≤ fuel := by
    simp only [hierarchyTokens, List.length_cons] at hfuel
    omega
  cases z with
  | false =>
    obtain ⟨g1, hparse, hext⟩ := root_parses s false root rest hfit
      { bodies := [], joints := [] } none fuel hfuel1
    refine ⟨addGeometry g1, ?_, ?_, ?_⟩
    · simp only [RcsGraph_createFromBVHFile, hierarchyTokens, List.cons_append, nextToken,
        scanString, Token.text]
      simp +decide only [if_true, if_false]
      rw [hparse]
      rfl
    · rw [nesting_addGeometry, hext.1]
      simp [RcsGraph.nesting, initialBodies]
    · have := hext.2
      simpa [addGeometry] using this
  | true =>
    obtain ⟨g1, hparse, hext⟩ := root_parses s true root rest hfit
      (RcsGraph_insertBody { bodies := [], joints := [] } none "BVHROOT" true) (some 0) fuel hfuel1
    refine ⟨addGeometry g1, ?_, ?_, ?_⟩
    · simp only [RcsGraph_createFromBVHFile, hierarchyTokens, List.cons_append, nextToken,
        scanString, Token.text]
      simp +decide only [if_true, if_false]
      rw [hparse]
      rfl
    · rw [nesting_addGeometry, hext.1]
      simp [RcsGraph.nesting, initialBodies, RcsGraph_insertBody]
    · have := hext.2
      simpa [addGeometry, RcsGraph_insertBody] using this

/-! ## Claims C1 and C2: the tree of a well-formed hierarchy -/

theorem declared_ownJoints (nm : String) (b : Nat) :
    ∀ (chans : List (List Label)) (off : Vec3),
      (ownJoints nm b off chans).map (fun j => (j.body, j.type)) =
        chans.flatten.map fun l => (b, l.jointType) := by
  have hchan : ∀ (ls : List Label) (off : Vec3) (i : Nat),
      (channelJoints nm b off i ls).map (fun j => (j.body, j.type)) =
        ls.map fun l => (b, l.jointType) := by
    intro ls
    induction ls with
    | nil => intro off i; rfl
    | cons l ls ih =>
      intro off i
      simp [channelJoints, ih off (i + 1), Label.joint]
  intro chans
  induction chans with
  | nil => intro off; rfl
  | cons ls cs ih =>
    intro off
    simp [ownJoints, hchan, ih Vec3d_zeroVec]

mutual
theorem declared_block (s : Double) (i : Nat) :
    ∀ blk : Block, (blk.joints s i).map (fun j => (j.body, j.type)) =
      (blk.declared i).map fun p => (p.1, p.2.jointType)
  | .mk nm off chans kids es => by
    simp [Block.joints, Block.declared, declared_ownJoints, declared_blocks s (i + 1) kids]
    rfl
theorem declared_blocks (s : Double) (i : Nat) :
    ∀ bs : Blocks, (bs.joints s i).map (fun j => (j.body, j.type)) =
      (bs.declared i).map fun p => (p.1, p.2.jointType)
  | .nil => by simp [Blocks.joints, Blocks.declared]
  | .cons blk bs => by
    simp [Blocks.joints, Blocks.declared, declared_block s i blk,
      declared_blocks s (i + blk.size) bs]
end

/-- C1: on the tokens of every well-formed hierarchy (names as `%63s` delivers
them), followed by anything, `RcsGraph_createFromBVHFile` returns a graph once
it is given as many frames as the hierarchy has tokens.  The bodies of the graph
are, after the `BVHROOT` body of the Z-up option, exactly one body per ROOT /
JOINT block in file order, each with the declared name and with the body of the
directly enclosing block as its parent; an End Site adds no body and no joint:
the number of bodies is the number of blocks and the number of joints is the
number of declared channels. -/
theorem C1_wellFormed_hierarchy_mirrors_nesting (root : Block) (rest : List Token) (s : Double)
    (z : Bool) (fuel : Nat) (hfit : root.namesFit = true)
    (hfuel : (hierarchyTokens root).length ≤ fuel) :
    ∃ g, RcsGraph_createFromBVHFile fuel (some (hierarchyTokens root ++ rest)) s z =
        some (.ret (some g)) ∧
      g.nesting = initialBodies z ++
        root.nesting (if z then some 0 else none) (if z then 1 else 0) ∧
      g.bodies.length = (initialBodies z).length + root.size ∧
      g.joints.length = (root.declared (if z then 1 else 0)).length := by
  obtain ⟨g, hg, hnest, hjoints⟩ := create_wellFormed root rest s z fuel hfit hfuel
  refine ⟨g, hg, hnest, ?_, ?_⟩
  · have := congrArg List.length hnest
    simpa [length_nesting, length_nesting_block] using this
  · have := congrArg List.length
      (congrArg (List.map fun j : RcsJoint => (j.body, j.type)) hjoints)
    rw [declared_block] at this
    simpa using this

theorem C1_witness :
    sampleRoot.namesFit = true ∧ (hierarchyTokens sampleRoot).length ≤ 64 ∧
    ∃ g, RcsGraph_createFromBVHFile 64
        (some (hierarchyTokens sampleRoot ++ [Token.word "MOTION"])) (.finite 1) true =
        some (.ret (some g)) ∧
      g.nesting = initialBodies true ++ sampleRoot.nesting (some 0) 1 ∧
      g.bodies.length = (initialBodies true).length + sampleRoot.size ∧
      g.joints.length = (sampleRoot.declared 1).length :=
  ⟨by decide, by decide,
    C1_wellFormed_hierarchy_mirrors_nesting sampleRoot [Token.word "MOTION"] (.finite 1) true 64
      (by decide) (by decide)⟩

/-- C2: for every well-formed hierarchy the joints of the resulting graph are
the declared channels in file order, each on the body of the block that
declares it and with the motion type of its label, so that the number of
joints (`dof`) is the total number of declared channels.  And the file
`HIERARCHY ROOT r { CHANNELS 3 Xposition Yposition Zposition End Site
{ OFFSET x y z } }`, parsed without the Z-up option, yields one body and
three joints of types translation-X, translation-Y, translation-Z. -/
theorem C2_joints_are_declared_channels :
    (∀ (root : Block) (rest : List Token) (s : Double) (z : Bool) (fuel : Nat),
      root.namesFit = true → (hierarchyTokens root).length ≤ fuel →
      ∃ g, RcsGraph_createFromBVHFile fuel (some (hierarchyTokens root ++ rest)) s z =
          some (.ret (some g)) ∧
        g.joints.map (fun j => (j.body, j.type)) =
          (root.declared (if z then 1 else 0)).map (fun p => (p.1, p.2.jointType)) ∧
        g.dof = (root.declared (if z then 1 else 0)).length) ∧
    (∀ (x y z : Number) (s : Double) (fuel : Nat), 18 ≤ fuel →
      ∃ g, RcsGraph_createFromBVHFile fuel
          (some [.word "HIERARCHY", .word "ROOT", .word "r", .word "\x7b", .word "CHANNELS",
            .int "3" 3, .word "Xposition", .word "Yposition", .word "Zposition", .word "End",
            .word "Site", .word "\x7b", .word "OFFSET", x.token, y.token, z.token,
            .word "\x7d", .word "\x7d"]) s false = some (.ret (some g)) ∧
        g.bodies.length = 1 ∧ g.joints.length = 3 ∧
        g.joints.map (fun j => j.type) =
          [.RCSJOINT_TRANS_X, .RCSJOINT_TRANS_Y, .RCSJOINT_TRANS_Z]) := by
  constructor
  · intro root rest s z fuel hfit hfuel
    obtain ⟨g, hg, _, hjoints⟩ := create_wellFormed root rest s z fuel hfit hfuel
    have hmap := congrArg (List.map fun j : RcsJoint => (j.body, j.type)) hjoints
    rw [declared_block] at hmap
    refine ⟨g, hg, hmap, ?_⟩
    have := congrArg List.length hmap
    simpa [RcsGraph.dof] using this
  · intro x y z s fuel hfuel
    obtain ⟨g, hg, hnest, hjoints⟩ := create_wellFormed
      (.mk "r" none [[.Xposition, .Yposition, .Zposition]] .nil (some (x, y, z))) [] s false fuel
      rfl (by simpa [hierarchyTokens, Block.tokens, optOffsetTokens, channelsTokens,
        Blocks.tokens, endTokens, offsetTokens] using hfuel)
    refine ⟨g, ?_, ?_, ?_, ?_⟩
    · simpa [hierarchyTokens, Block.tokens, optOffsetTokens, channelsTokens, Blocks.tokens,
        endTokens, offsetTokens, Label.text] using hg
    · have := congrArg List.length hnest
      simpa [length_nesting, initialBodies, Block.nesting, Blocks.nesting] using this
    · rw [hjoints]
      simp [Block.joints, Blocks.joints, ownJoints, channelJoints]
    · rw [hjoints]
      simp [Block.joints, Blocks.joints, ownJoints, channelJoints, Label.joint, Label.jointType]

theorem C2_witness :
    sampleRoot.namesFit = true ∧ (hierarchyTokens sampleRoot).length ≤ 64 ∧
    ∃ g, RcsGraph_createFromBVHFile 64 (some (hierarchyTokens sampleRoot ++ [])) (.finite 1) false =
        some (.ret (some g)) ∧
      g.joints.map (fun j => (j.body, j.type)) =
        (sampleRoot.declared 0).map (fun p => (p.1, p.2.jointType)) ∧
      g.dof = (sampleRoot.declared 0).length :=
  ⟨by decide, by decide,
    C2_joints_are_declared_channels.1 sampleRoot [] (.finite 1) false 64 (by decide) (by decide)⟩

/-! ## The trajectory reader -/

/-- On a file without a word the probe loop ends, given one iteration more
than there are runs. -/
theorem probeLoop_runs :
    ∀ (fuel : Nat) (fd : List Token) (n : Nat), (∀ t ∈ fd, t.isWord = false) → fd.length < fuel →
      probeLoop fuel fd n = some ((n + fd.length + 1) % 2 ^ 32) := by
  intro fuel
  induction fuel with
  | zero => intro fd n _ h; simp at h
  | succ fuel ih =>
    intro fd n hnum hlen
    cases fd with
    | nil => simp [probeLoop, scanDouble]
    | cons t rest =>
      have hrest : ∀ u ∈ rest, u.isWord = false := fun u hu => hnum u (List.mem_cons_of_mem _ hu)
      have hlen1 : rest.length < fuel := by simpa using hlen
      cases t with
      | word w => exact absurd (hnum (Token.word w) (by simp)) (by simp [Token.isWord])
      | int tx k =>
        simp only [probeLoop, scanDouble, ih rest _ hrest hlen1, List.length_cons]
        congr 1
        omega
      | real tx q =>
        simp only [probeLoop, scanDouble, ih rest _ hrest hlen1, List.length_cons]
        congr 1
        omega
      | stub tx sg =>
        simp only [probeLoop, scanDouble, ih rest _ hrest hlen1, List.length_cons]
        congr 1
        omega

theorem isWord_of_value {t : Token} (h : t.value ≠ none) : t.isWord = false := by
  cases t <;> simp [Token.value] at h <;> rfl

/-- On a file of numbers the probe loop ends, given one iteration more than
there are numbers. -/
theorem probeLoop_numbers (fuel : Nat) (fd : List Token) (n : Nat)
    (hnum : ∀ t ∈ fd, t.value ≠ none) (hlen : fd.length < fuel) :
    probeLoop fuel fd n = some ((n + fd.length + 1) % 2 ^ 32) :=
  probeLoop_runs fuel fd n (fun t ht => isWord_of_value (hnum t ht)) hlen

/-- A frame entered on a token that is neither a keyword nor a terminal calls
itself on the same token: it does not return. -/
theorem parseRecursive_wobble (s : Double) (z : Bool) :
    ∀ (fuel : Nat) (g : RcsGraph) (fd : List Token) (body : Option Nat) (off : Vec3),
      parseRecursive s z fuel { buf := "Wobble", self := g, fd := fd } body off = none := by
  intro fuel
  induction fuel with
  | zero => intro g fd body off; rfl
  | succ n ih =>
    intro g fd body off
    simp +decide [parseRecursive, parseBody, tailCheck, ih, discard, andThen]

/-- C5: the unknown label `Wobble` is not reported to the caller.  On
`HIERARCHY ROOT r { CHANNELS 1 Wobble }` the CHANNELS frame returns false, the
ROOT frame drops that result and `RcsGraph_createFromBVHFile` never returns,
whatever the number of frames; with the same block inside a JOINT block the
process exits in `RCHECK`; and with the unknown label `CHANNELS` the parser
goes on and returns a graph. -/
theorem C5_unknown_label_is_not_reported :
    (∀ (fuel : Nat) (s : Double) (z : Bool),
      RcsGraph_createFromBVHFile fuel
        (some [.word "HIERARCHY", .word "ROOT", .word "r", .word "\x7b", .word "CHANNELS",
          .int "1" 1, .word "Wobble", .word "\x7d"]) s z = none) ∧
    (∀ (n : Nat) (s : Double) (z : Bool),
      RcsGraph_createFromBVHFile (n + 3)
        (some [.word "HIERARCHY", .word "ROOT", .word "r", .word "\x7b", .word "JOINT",
          .word "a", .word "\x7b", .word "CHANNELS", .int "1" 1, .word "Wobble", .word "\x7d",
          .word "\x7d"]) s z = some .abort) ∧
    (∀ (n : Nat) (s : Double),
      ∃ g, RcsGraph_createFromBVHFile (n + 4)
        (some [.word "HIERARCHY", .word "ROOT", .word "r", .word "\x7b", .word "CHANNELS",
          .int "1" 1, .word "CHANNELS", .int "0" 0, .word "\x7d"]) s false =
          some (.ret (some g)) ∧ g.nesting = [("r", none)] ∧ g.joints = []) := by
  refine ⟨?_, ?_, ?_⟩
  · intro fuel s z
    cases fuel with
    | zero => cases z <;> rfl
    | succ n =>
      cases n with
      | zero => cases z <;> rfl
      | succ n =>
        cases z <;>
        simp +decide [RcsGraph_createFromBVHFile, nextToken, scanString, Token.text,
          parseRecursive, parseBody, scanCount, scanInt, channelsLoop, RcsGraph_insertBody,
          jointNameSize, channelOf, STRNCASEEQ, tailCheck, discard, andThen,
          parseRecursive_wobble]
  · intro n s z
    cases z <;> rfl
  · intro n s
    exact ⟨_, rfl, rfl, rfl⟩

/-! ## Claim C6: a value count the frame count does not divide -/

theorem motionHeader_section (tx : String) (F : Int) (t : Number) (vals : List Number) :
    motionHeader (motionSection tx F t vals) = .ret (F, t.val, vals.map Number.token) := by
  simp +decide [motionHeader, motionSection, scanString, Token.text, scanCount, scanInt,
    scanDouble_number]

theorem value_number (x : Number) : x.token.value ≠ none := by
  cases x <;> simp [Number.token, Token.value]

/-- C6: for a motion section that declares a positive frame count `F` and holds
`k` numeric values (fewer than 2^31), `k` not a multiple of `F`,
`RcsGraph_createTrajectoryFromBVHFile` returns the null pointer, once its probe
loop is given more than `k` iterations.  It does so whatever the graph is: the
return of line 505 comes before `MatNd_create` (line 511), the degree-of-freedom
check and the fill loop. -/
theorem C6_shape_mismatch_returns_null (fuel : Nat) (graph : RcsGraph) (fd : List Token)
    (tx : String) (F : Int) (t : Number) (vals : List Number)
    (linearScaleToSI angularScaleToSI : ℚ)
    (hfind : findKeyword "MOTION" fd = (true, motionSection tx F t vals))
    (hF : 0 < F) (hF1 : F < 2 ^ 31) (hk : vals.length < 2 ^ 31)
    (hmod : (vals.length : Int) % F ≠ 0) (hfuel : vals.length < fuel) :
    RcsGraph_createTrajectoryFromBVHFile fuel graph (some fd) linearScaleToSI angularScaleToSI =
      some (.ret (none, some t.val)) := by
  have hprobe := probeLoop_numbers fuel (vals.map Number.token) 0
    (by
      intro u hu
      obtain ⟨x, _, rfl⟩ := List.mem_map.1 hu
      exact value_number x)
    (by simpa using hfuel)
  have hcount : ((0 + (vals.map Number.token).length + 1) % 2 ^ 32 + 2 ^ 32 - 1) % 2 ^ 32 =
      vals.length := by
    simp only [List.length_map]
    omega
  have hU : toUnsigned F = F.toNat := by
    unfold toUnsigned
    omega
  have hU0 : F.toNat ≠ 0 := by omega
  have hmod1 : vals.length % F.toNat ≠ 0 := by
    intro hc
    apply hmod
    have : ((vals.length % F.toNat : Nat) : Int) = 0 := by rw [hc]; rfl
    rw [Int.natCast_mod, Int.toNat_of_nonneg (le_of_lt hF)] at this
    exact this
  simp only [RcsGraph_createTrajectoryFromBVHFile, hfind, motionHeader_section, motionData,
    hprobe, hcount, hU, hU0, if_false, ne_eq, hmod1, not_false_eq_true, if_true, andThen]

theorem C6_witness :
    RcsGraph_createTrajectoryFromBVHFile 11 sampleGraph
      (some (.word "HIERARCHY" :: .word "MOTION" ::
        motionSection "3" 3 (.real "0.04" (1 / 25)) tenValues)) 1 1 =
      some (.ret (none, some (Number.real "0.04" (1 / 25)).val)) :=
  C6_shape_mismatch_returns_null 11 sampleGraph _ "3" 3 (.real "0.04" (1 / 25)) tenValues 1 1
    rfl (by decide) (by decide) (by decide) (by decide) (by decide)

/-! ## Double arithmetic -/

theorem mul_finite (a b : ℚ) : (Double.finite a).mul (.finite b) = Double.round (a * b) := rfl

theorem add_finite (a b : ℚ) : (Double.finite a).add (.finite b) = Double.round (a + b) := rfl

theorem constMul_eq (x y z s : Double) :
    Vec3d_constMul (x, y, z) s = (x.mul s, y.mul s, z.mul s) := rfl

theorem roundHalfEven_intCast (n : Int) : roundHalfEven (n : ℚ) = n := by
  simp [roundHalfEven]

theorem roundHalfEven_nonneg {x : ℚ} (h : 0 ≤ x) : 0 ≤ roundHalfEven x := by
  have hf : 0 ≤ ⌊x⌋ := Int.floor_nonneg.2 h
  unfold roundHalfEven
  simp only []
  split_ifs <;> omega

theorem roundHalfEven_le {x : ℚ} {m : Int} (h : x ≤ m) : roundHalfEven x ≤ m := by
  have hf : ⌊x⌋ ≤ m := Int.floor_le_iff.2 (by linarith)
  have hstep : ¬ x - ⌊x⌋ < 1 / 2 → ⌊x⌋ + 1 ≤ m := by
    intro hx
    have hlt : (⌊x⌋ : ℚ) < m := by linarith
    have : ⌊x⌋ < m := by exact_mod_cast hlt
    omega
  unfold roundHalfEven
  simp only []
  split_ifs with h1 h2 h3
  · exact hf
  · exact hstep h1
  · exact hf
  · exact hstep h1

theorem roundHalfEven_ge {x : ℚ} {m : Int} (h : (m : ℚ) ≤ x) : m ≤ roundHalfEven x := by
  have hf : m ≤ ⌊x⌋ := Int.le_floor.2 h
  unfold roundHalfEven
  simp only []
  split_ifs <;> omega

theorem roundHalfEven_eq_zero {x : ℚ} (h0 : 0 ≤ x) (h : x ≤ 1 / 2) : roundHalfEven x = 0 := by
  have hf : ⌊x⌋ = 0 := Int.floor_eq_zero_iff.2 ⟨h0, by linarith⟩
  unfold roundHalfEven
  simp only [hf, Int.cast_zero, sub_zero]
  split_ifs with h1 h2 h3
  · rfl
  · linarith
  · rfl
  · simp at h3

/-- The rounding written out: `e` is the exponent, `u` the spacing. -/
theorem round_eq (q : ℚ) :
    Double.round q =
      if (roundHalfEven (|q| / 2 ^ (max (Int.log 2 |q|) (-1022) - 52)) : ℚ) *
          2 ^ (max (Int.log 2 |q|) (-1022) - 52) < 2 ^ 1024
      then .finite (if q < 0
        then -((roundHalfEven (|q| / 2 ^ (max (Int.log 2 |q|) (-1022) - 52)) : ℚ) *
          2 ^ (max (Int.log 2 |q|) (-1022) - 52))
        else (roundHalfEven (|q| / 2 ^ (max (Int.log 2 |q|) (-1022) - 52)) : ℚ) *
          2 ^ (max (Int.log 2 |q|) (-1022) - 52))
      else .inf (decide (q < 0)) := rfl

theorem round_zero : Double.round 0 = .finite 0 := by
  rw [round_eq]
  simp [roundHalfEven]

/-- A rational that is a multiple of the spacing of its binade, and below
`2 ^ 1024`, is a double. -/
theorem round_exact (q : ℚ) (N : Int)
    (h : |q| = N * 2 ^ (max (Int.log 2 |q|) (-1022) - 52)) (hlt : |q| < 2 ^ 1024) :
    Double.round q = .finite q := by
  have hu : (0 : ℚ) < 2 ^ (max (Int.log 2 |q|) (-1022) - 52) := zpow_pos (by norm_num) _
  have hdiv : |q| / 2 ^ (max (Int.log 2 |q|) (-1022) - 52) = N := by
    rw [div_eq_iff hu.ne']
    exact h
  rw [round_eq, hdiv, roundHalfEven_intCast, ← h, if_pos hlt]
  congr 1
  split_ifs with hq
  · rw [abs_of_neg hq, neg_neg]
  · rw [abs_of_nonneg (not_lt.1 hq)]

/-- A natural number below `2 ^ 53` is a double. -/
theorem round_natCast (n : Nat) (h : n < 2 ^ 53) : Double.round (n : ℚ) = .finite n := by
  rcases Nat.eq_zero_or_pos n with rfl | hpos
  · simpa using round_zero
  have habs : |(n : ℚ)| = n := abs_of_nonneg (Nat.cast_nonneg n)
  have hlog : Int.log 2 |(n : ℚ)| = Nat.log 2 n := by rw [habs, Int.log_natCast]
  have hL : Nat.log 2 n ≤ 52 := by
    have := Nat.log_lt_of_lt_pow (b := 2) (by omega) h
    omega
  have hmax : max (Int.log 2 |(n : ℚ)|) (-1022) = Nat.log 2 n := by
    rw [hlog]
    omega
  apply round_exact _ ((n * 2 ^ (52 - Nat.log 2 n) : Nat) : Int)
  · rw [hmax, habs]
    have : ((Nat.log 2 n : Int) - 52) = -((52 - Nat.log 2 n : Nat) : Int) := by omega
    rw [this, zpow_neg, zpow_natCast]
    push_cast
    field_simp
  · rw [habs]
    have : (n : ℚ) < 2 ^ 53 := by exact_mod_cast h
    have h2 : (2 : ℚ) ^ 53 < 2 ^ 1024 := by norm_num
    linarith

/-- A rational of magnitude at most `2 ^ (-1075)` rounds to zero. -/
theorem round_underflow (q : ℚ) (h : |q| ≤ 2 ^ (-1075 : Int)) : Double.round q = .finite 0 := by
  by_cases hq : q = 0
  · rw [hq, round_zero]
  have hpos : 0 < |q| := abs_pos.2 hq
  have hlog : Int.log 2 |q| < -1021 := by
    rw [← Int.lt_zpow_iff_log_lt (by norm_num) hpos]
    have : (2 : ℚ) ^ (-1075 : Int) < ((2 : Nat) : ℚ) ^ (-1021 : Int) := by
      rw [Nat.cast_ofNat]
      exact zpow_lt_zpow_right₀ (by norm_num) (by norm_num)
    linarith
  have hmax : max (Int.log 2 |q|) (-1022) = -1022 := by omega
  have hr : roundHalfEven (|q| / 2 ^ (-1022 - 52 : Int)) = 0 := by
    apply roundHalfEven_eq_zero (div_nonneg hpos.le (zpow_nonneg (by norm_num) _))
    rw [div_le_iff₀ (zpow_pos (by norm_num) _)]
    have : (1 / 2 : ℚ) * 2 ^ (-1022 - 52 : Int) = 2 ^ (-1075 : Int) := by
      rw [show (-1022 - 52 : Int) = -1075 + 1 by norm_num, zpow_add₀ (by norm_num)]
      norm_num
    rw [this]
    exact h
  rw [round_eq, hmax, hr]
  simp

/-- Rounding does not pass a power of two: a rational of magnitude at most
`2 ^ k` rounds to a finite double of magnitude at most `2 ^ k`. -/
theorem round_le_zpow (q : ℚ) (k : Int) (hk : -1074 ≤ k) (hk1 : k ≤ 1023)
    (h : |q| ≤ 2 ^ k) : ∃ r, Double.round q = .finite r ∧ |r| ≤ 2 ^ k := by
  by_cases hq : q = 0
  · exact ⟨0, by rw [hq, round_zero], by simpa using (zpow_pos (by norm_num) k).le⟩
  have hpos : 0 < |q| := abs_pos.2 hq
  have hlog : Int.log 2 |q| < k + 1 := by
    rw [← Int.lt_zpow_iff_log_lt (by norm_num) hpos]
    have : (2 : ℚ) ^ k < ((2 : Nat) : ℚ) ^ (k + 1) := by
      rw [Nat.cast_ofNat]
      exact zpow_lt_zpow_right₀ (by norm_num) (by omega)
    linarith
  obtain ⟨d, hd⟩ : ∃ d : Nat, k = (max (Int.log 2 |q|) (-1022) - 52) + d :=
    ⟨(k - (max (Int.log 2 |q|) (-1022) - 52)).toNat, by omega⟩
  have hu : (0 : ℚ) < 2 ^ (max (Int.log 2 |q|) (-1022) - 52) := zpow_pos (by norm_num) _
  have hpow : (2 : ℚ) ^ k = ((2 ^ d : Nat) : Int) * 2 ^ (max (Int.log 2 |q|) (-1022) - 52) := by
    rw [hd, zpow_add₀ (by norm_num), zpow_natCast]
    push_cast
    ring
  have hN : roundHalfEven (|q| / 2 ^ (max (Int.log 2 |q|) (-1022) - 52)) ≤ ((2 ^ d : Nat) : Int) := by
    apply roundHalfEven_le
    rw [div_le_iff₀ hu, ← hpow]
    exact h
  have hN0 : 0 ≤ roundHalfEven (|q| / 2 ^ (max (Int.log 2 |q|) (-1022) - 52)) :=
    roundHalfEven_nonneg (div_nonneg hpos.le hu.le)
  have hr : (roundHalfEven (|q| / 2 ^ (max (Int.log 2 |q|) (-1022) - 52)) : ℚ) *
      2 ^ (max (Int.log 2 |q|) (-1022) - 52) ≤ 2 ^ k := by
    rw [hpow]
    exact mul_le_mul_of_nonneg_right (by exact_mod_cast hN) hu.le
  have hr0 : (0 : ℚ) ≤ (roundHalfEven (|q| / 2 ^ (max (Int.log 2 |q|) (-1022) - 52)) : ℚ) *
      2 ^ (max (Int.log 2 |q|) (-1022) - 52) :=
    mul_nonneg (by exact_mod_cast hN0) hu.le
  have hfin : (roundHalfEven (|q| / 2 ^ (max (Int.log 2 |q|) (-1022) - 52)) : ℚ) *
      2 ^ (max (Int.log 2 |q|) (-1022) - 52) < 2 ^ 1024 := by
    have : (2 : ℚ) ^ k < 2 ^ (1024 : Int) := zpow_lt_zpow_right₀ (by norm_num) (by omega)
    have h2 : (2 : ℚ) ^ (1024 : Int) = 2 ^ 1024 := by norm_num
    linarith
  rw [round_eq, if_pos hfin]
  refine ⟨_, rfl, ?_⟩
  split_ifs
  · rw [abs_neg, abs_of_nonneg hr0]
    exact hr
  · rw [abs_of_nonneg hr0]
    exact hr

/-- Rounding does not pass a power of two from above either: a rational that is
at least `2 ^ k` rounds to a double that is at least `2 ^ k`. -/
theorem round_ge_zpow (q : ℚ) (k : Int) (hk : -1074 ≤ k) (h : 2 ^ k ≤ q) :
    (Double.round q).atLeast (2 ^ k) := by
  have hpos : 0 < q := lt_of_lt_of_le (zpow_pos (by norm_num) k) h
  have habs : |q| = q := abs_of_pos hpos
  have hkL : k ≤ Int.log 2 q := by
    rw [← Int.zpow_le_iff_le_log (by norm_num) hpos, Nat.cast_ofNat]
    exact h
  have hL : (2 : ℚ) ^ Int.log 2 q ≤ q := by
    have := Int.zpow_log_le_self (b := 2) (by norm_num) hpos
    rwa [Nat.cast_ofNat] at this
  obtain ⟨t, ht1, ht2, ht3⟩ : ∃ t : Int, (2 : ℚ) ^ t ≤ q ∧
      max (Int.log 2 q) (-1022) - 52 ≤ t ∧ k ≤ t := by
    by_cases hc : -1022 ≤ Int.log 2 q
    · exact ⟨Int.log 2 q, hL, by omega, hkL⟩
    · exact ⟨k, h, by omega, le_refl k⟩
  obtain ⟨d, hd⟩ : ∃ d : Nat, t = (max (Int.log 2 q) (-1022) - 52) + d :=
    ⟨(t - (max (Int.log 2 q) (-1022) - 52)).toNat, by omega⟩
  have hu : (0 : ℚ) < 2 ^ (max (Int.log 2 q) (-1022) - 52) := zpow_pos (by norm_num) _
  have hpow : (2 : ℚ) ^ t = ((2 ^ d : Nat) : Int) * 2 ^ (max (Int.log 2 q) (-1022) - 52) := by
    rw [hd, zpow_add₀ (by norm_num), zpow_natCast]
    push_cast
    ring
  have hN : ((2 ^ d : Nat) : Int) ≤ roundHalfEven (q / 2 ^ (max (Int.log 2 q) (-1022) - 52)) := by
    apply roundHalfEven_ge
    rw [le_div_iff₀ hu, ← hpow]
    exact ht1
  have hr : (2 : ℚ) ^ k ≤ (roundHalfEven (q / 2 ^ (max (Int.log 2 q) (-1022) - 52)) : ℚ) *
      2 ^ (max (Int.log 2 q) (-1022) - 52) := by
    calc (2 : ℚ) ^ k ≤ 2 ^ t := zpow_le_zpow_right₀ (by norm_num) ht3
      _ = ((2 ^ d : Nat) : Int) * 2 ^ (max (Int.log 2 q) (-1022) - 52) := hpow
      _ ≤ _ := mul_le_mul_of_nonneg_right (by exact_mod_cast hN) hu.le
  rw [round_eq, habs]
  split_ifs with h1 h2
  · exact absurd h2 (not_lt.2 hpos.le)
  · exact hr
  · simp [Double.atLeast, not_lt.2 hpos.le]

/-- A rational that is not negative rounds to a double that is not negative. -/
theorem round_nonneg (q : ℚ) (h : 0 ≤ q) : (Double.round q).atLeast 0 := by
  have hu : (0 : ℚ) < 2 ^ (max (Int.log 2 |q|) (-1022) - 52) := zpow_pos (by norm_num) _
  have hN0 : 0 ≤ roundHalfEven (|q| / 2 ^ (max (Int.log 2 |q|) (-1022) - 52)) :=
    roundHalfEven_nonneg (div_nonneg (abs_nonneg q) hu.le)
  rw [round_eq]
  split_ifs with h1 h2
  · exact absurd h2 (not_lt.2 h)
  · exact mul_nonneg (by exact_mod_cast hN0) hu.le
  · simp [Double.atLeast, not_lt.2 h]

/-- The sum of a double that is at least `2 ^ k` and a double that is not
negative is at least `2 ^ k`. -/
theorem add_atLeast {x y : Double} (k : Int) (hk : -1074 ≤ k) (hx : x.atLeast (2 ^ k))
    (hy : y.atLeast 0) : (x.add y).atLeast (2 ^ k) := by
  cases x with
  | nan => exact hx.elim
  | inf m =>
    cases y with
    | nan => exact hy.elim
    | inf n =>
      simp only [Double.atLeast] at hx hy
      subst hx hy
      simp [Double.add, Double.atLeast]
    | finite b => simpa [Double.add, Double.atLeast] using hx
  | finite a =>
    cases y with
    | nan => exact hy.elim
    | inf n => simpa [Double.add, Double.atLeast] using hy
    | finite b =>
      simp only [Double.atLeast] at hx hy
      exact round_ge_zpow (a + b) k hk (by linarith)

theorem add_atLeast_right {x y : Double} (k : Int) (hk : -1074 ≤ k) (hx : x.atLeast 0)
    (hy : y.atLeast (2 ^ k)) : (x.add y).atLeast (2 ^ k) := by
  cases x with
  | nan => exact hx.elim
  | inf m =>
    cases y with
    | nan => exact hy.elim
    | inf n =>
      simp only [Double.atLeast] at hx hy
      subst hx hy
      simp [Double.add, Double.atLeast]
    | finite b => simpa [Double.add, Double.atLeast] using hx
  | finite a =>
    cases y with
    | nan => exact hy.elim
    | inf n => simpa [Double.add, Double.atLeast] using hy
    | finite b =>
      simp only [Double.atLeast] at hx hy
      exact round_ge_zpow (a + b) k hk (by linarith)

theorem add_nonneg {x y : Double} (hx : x.atLeast 0) (hy : y.atLeast 0) :
    (x.add y).atLeast 0 := by
  cases x with
  | nan => exact hx.elim
  | inf m =>
    cases y with
    | nan => exact hy.elim
    | inf n =>
      simp only [Double.atLeast] at hx hy
      subst hx hy
      simp [Double.add, Double.atLeast]
    | finite b => simpa [Double.add, Double.atLeast] using hx
  | finite a =>
    cases y with
    | nan => exact hy.elim
    | inf n => simpa [Double.add, Double.atLeast] using hy
    | finite b =>
      simp only [Double.atLeast] at hx hy
      exact round_nonneg (a + b) (by linarith)

/-- The square of a finite double is not negative, and at least `2 ^ (-1074)`
when the double is at least `2 ^ (-537)` in magnitude. -/
theorem sq_atLeast (x : ℚ) :
    ((Double.finite x).mul (.finite x)).atLeast 0 ∧
      ((2 : ℚ) ^ (-537 : Int) ≤ |x| →
        ((Double.finite x).mul (.finite x)).atLeast (2 ^ (-1074 : Int))) := by
  refine ⟨round_nonneg _ (mul_self_nonneg x), fun h => round_ge_zpow _ _ (le_refl _) ?_⟩
  have h0 : (0 : ℚ) ≤ 2 ^ (-537 : Int) := (zpow_pos (by norm_num) _).le
  have : (2 : ℚ) ^ (-1074 : Int) = 2 ^ (-537 : Int) * 2 ^ (-537 : Int) := by
    rw [← zpow_add₀ (by norm_num)]
    norm_num
  rw [this, ← abs_mul_abs_self x]
  exact mul_le_mul h h h0 (abs_nonneg x)

theorem lt_of_atLeast {d : Double} (k : Int) (h : d.atLeast (2 ^ k)) :
    Double.lt (.finite 0) d = true := by
  cases d with
  | nan => exact h.elim
  | inf n =>
    simp only [Double.atLeast] at h
    simp [Double.lt, h]
  | finite r =>
    simp only [Double.atLeast] at h
    have : (0 : ℚ) < 2 ^ k := zpow_pos (by norm_num) k
    simp only [Double.lt, decide_eq_true_eq]
    linarith

/-- The squared length of a finite vector is positive when one of its
components is at least `2 ^ (-537)` in magnitude. -/
theorem sqrLength_pos (x y z : ℚ)
    (h : (2 : ℚ) ^ (-537 : Int) ≤ |x| ∨ (2 : ℚ) ^ (-537 : Int) ≤ |y| ∨
      (2 : ℚ) ^ (-537 : Int) ≤ |z|) :
    Double.lt (.finite 0) (Vec3d_sqrLength (.finite x, .finite y, .finite z)) = true := by
  apply lt_of_atLeast (-1074)
  simp only [Vec3d_sqrLength]
  rcases h with h | h | h
  · exact add_atLeast _ (le_refl _)
      (add_atLeast _ (le_refl _) ((sq_atLeast x).2 h) (sq_atLeast y).1) (sq_atLeast z).1
  · exact add_atLeast _ (le_refl _)
      (add_atLeast_right _ (le_refl _) (sq_atLeast x).1 ((sq_atLeast y).2 h)) (sq_atLeast z).1
  · exact add_atLeast_right _ (le_refl _) (add_nonneg (sq_atLeast x).1 (sq_atLeast y).1)
      ((sq_atLeast z).2 h)

/-- The square of a finite double of magnitude at most `2 ^ (-538)` is zero. -/
theorem sq_underflow (x : ℚ) (h : |x| ≤ 2 ^ (-538 : Int)) :
    (Double.finite x).mul (.finite x) = .finite 0 := by
  apply round_underflow
  have h0 : (0 : ℚ) ≤ 2 ^ (-538 : Int) := (zpow_pos (by norm_num) _).le
  have : (2 : ℚ) ^ (-538 : Int) * 2 ^ (-538 : Int) ≤ 2 ^ (-1075 : Int) := by
    rw [← zpow_add₀ (by norm_num)]
    exact zpow_le_zpow_right₀ (by norm_num) (by norm_num)
  rw [← abs_mul_abs_self x, abs_of_nonneg (mul_self_nonneg _)]
  exact le_trans (mul_le_mul h h (abs_nonneg x) h0) this

theorem add_zero_zero : (Double.finite 0).add (.finite 0) = .finite 0 := by
  simp [add_finite, round_zero]

/-- The squared length of a finite vector is zero when each of its components
is at most `2 ^ (-538)` in magnitude. -/
theorem sqrLength_underflow (x y z : ℚ) (hx : |x| ≤ 2 ^ (-538 : Int))
    (hy : |y| ≤ 2 ^ (-538 : Int)) (hz : |z| ≤ 2 ^ (-538 : Int)) :
    Double.lt (.finite 0) (Vec3d_sqrLength (.finite x, .finite y, .finite z)) = false := by
  simp only [Vec3d_sqrLength]
  rw [sq_underflow x hx, sq_underflow y hy, sq_underflow z hz, add_zero_zero, add_zero_zero]
  simp [Double.lt]

theorem lt_sqrLength_zeroVec :
    Double.lt (.finite 0) (Vec3d_sqrLength Vec3d_zeroVec) = false := by
  simp [Vec3d_sqrLength, Vec3d_zeroVec, mul_finite, add_finite, round_zero, Double.lt]

/-! ## Claim C7: the pending offset -/

theorem round_one : Double.round 1 = .finite 1 := by
  simpa using round_natCast 1 (by norm_num)

theorem round_two : Double.round 2 = .finite 2 := by
  simpa using round_natCast 2 (by norm_num)

theorem round_three : Double.round 3 = .finite 3 := by
  simpa using round_natCast 3 (by norm_num)

theorem origins_channelJoints_succ (nm : String) (b : Nat) (off : Vec3) :
    ∀ (ls : List Label) (i : Nat),
      (channelJoints nm b off (i + 1) ls).map (fun j => j.A_JP) = ls.map fun _ => none := by
  intro ls
  induction ls with
  | nil => intro i; rfl
  | cons l ls ih =>
    intro i
    simp [channelJoints, ih (i + 1), Label.joint]

theorem origins_channelJoints_zero (nm : String) (b : Nat) (ls : List Label) (i : Nat) :
    (channelJoints nm b Vec3d_zeroVec i ls).map (fun j => j.A_JP) = ls.map fun _ => none := by
  induction ls generalizing i with
  | nil => rfl
  | cons l ls ih =>
    have h0 : (l.joint nm b Vec3d_zeroVec i).A_JP = none := by
      simp [Label.joint, lt_sqrLength_zeroVec]
    simp only [channelJoints, List.map_cons, ih (i + 1), h0]

theorem origins_ownJoints_zero (nm : String) (b : Nat) (chans : List (List Label)) :
    (ownJoints nm b Vec3d_zeroVec chans).map (fun j => j.A_JP) =
      chans.flatten.map fun _ => none := by
  induction chans with
  | nil => rfl
  | cons ls cs ih => simp [ownJoints, origins_channelJoints_zero, ih]

theorem origins_ownJoints (s : Double) (nm : String) (b : Nat) (off : Option Offset)
    (chans : List (List Label)) :
    (ownJoints nm b (pendingOffset s off) chans).map (fun j => j.A_JP) =
      bodyOrigins s off chans := by
  cases chans with
  | nil => cases off <;> rfl
  | cons first later =>
    cases off with
    | none =>
      simp [ownJoints, pendingOffset, bodyOrigins, origins_channelJoints_zero,
        origins_ownJoints_zero]
    | some v =>
      cases first with
      | nil =>
        simp [ownJoints, pendingOffset, bodyOrigins, channelJoints, origins_ownJoints_zero]
      | cons l others =>
        simp only [ownJoints, pendingOffset, bodyOrigins, channelJoints, List.map_append,
          List.map_cons, origins_ownJoints_zero, origins_channelJoints_succ, Label.joint,
          true_and, List.cons_append]

mutual
theorem origins_block (s : Double) (i : Nat) :
    ∀ blk : Block, (blk.joints s i).map (fun j => j.A_JP) = blk.origins s
  | .mk nm off chans kids es => by
    simp [Block.joints, Block.origins, origins_ownJoints, origins_blocks s (i + 1) kids]
theorem origins_blocks (s : Double) (i : Nat) :
    ∀ bs : Blocks, (bs.joints s i).map (fun j => j.A_JP) = bs.origins s
  | .nil => by simp [Blocks.joints, Blocks.origins]
  | .cons blk bs => by
    simp [Blocks.joints, Blocks.origins, origins_block s i blk,
      origins_blocks s (i + blk.size) bs]
end

/-- The local origins of the joints `RcsGraph_createFromBVHFile` creates for a
well-formed hierarchy. -/
theorem create_origins (root : Block) (rest : List Token) (s : Double) (z : Bool) (fuel : Nat)
    (hfit : root.namesFit = true) (hfuel : (hierarchyTokens root).length ≤ fuel) :
    ∃ g, RcsGraph_createFromBVHFile fuel (some (hierarchyTokens root ++ rest)) s z =
        some (.ret (some g)) ∧
      g.joints.map (fun j => j.A_JP) = root.origins s := by
  obtain ⟨g, hg, _, hjoints⟩ := create_wellFormed root rest s z fuel hfit hfuel
  exact ⟨g, hg, by rw [hjoints, origins_block]⟩

theorem tiny_le : |(1 / 10 ^ 200 : ℚ)| ≤ 2 ^ (-600 : Int) := by
  have h8 : (2 : ℚ) ^ 600 ≤ 10 ^ 200 := by
    rw [show (2 : ℚ) ^ 600 = (2 ^ 3) ^ 200 by rw [← pow_mul]]
    exact pow_le_pow_left₀ (by norm_num) (by norm_num) 200
  rw [abs_of_pos (by positivity), zpow_neg, zpow_ofNat, ← one_div]
  exact one_div_le_one_div_of_le (by positivity) h8

theorem tiny_ge : (2 : ℚ) ^ (-700 : Int) ≤ 1 / 10 ^ 200 := by
  have h128 : (10 : ℚ) ^ 200 ≤ 2 ^ 700 := by
    rw [show (2 : ℚ) ^ 700 = (2 ^ 7) ^ 100 by rw [← pow_mul],
      show (10 : ℚ) ^ 200 = (10 ^ 2) ^ 100 by rw [← pow_mul]]
    exact pow_le_pow_left₀ (by norm_num) (by norm_num) 100
  rw [zpow_neg, zpow_ofNat, ← one_div]
  exact one_div_le_one_div_of_le (by positivity) h128

/-- The pending offset of `OFFSET 1e-200 0 0` with the linear factor 1 is not
the zero vector, and its squared length is zero. -/
theorem tiny_pending :
    ∃ r : ℚ, Vec3d_constMul
        (Double.round (1 / 10 ^ 200), Double.round ((0 : Int) : ℚ), Double.round ((0 : Int) : ℚ))
        (.finite 1) = (.finite r, .finite 0, .finite 0) ∧ r ≠ 0 ∧
      Double.lt (.finite 0) (Vec3d_sqrLength (.finite r, .finite 0, .finite 0)) = false := by
  obtain ⟨r, hr, hrb⟩ := round_le_zpow _ (-600) (by norm_num) (by norm_num) tiny_le
  have hr0 : (2 : ℚ) ^ (-700 : Int) ≤ r := by
    have := round_ge_zpow _ (-700) (by norm_num) tiny_ge
    rwa [hr] at this
  obtain ⟨r1, hr1, hr1b⟩ := round_le_zpow (r * 1) (-600) (by norm_num) (by norm_num)
    (by rw [mul_one]; exact hrb)
  have hr10 : (2 : ℚ) ^ (-700 : Int) ≤ r1 := by
    have := round_ge_zpow (r * 1) (-700) (by norm_num) (by rw [mul_one]; exact hr0)
    rwa [hr1] at this
  have hpos : (0 : ℚ) < 2 ^ (-700 : Int) := zpow_pos (by norm_num) _
  have hsmall : (2 : ℚ) ^ (-600 : Int) ≤ 2 ^ (-538 : Int) :=
    zpow_le_zpow_right₀ (by norm_num) (by norm_num)
  have hz : |(0 : ℚ)| ≤ 2 ^ (-538 : Int) := by
    rw [abs_zero]
    exact (zpow_pos (by norm_num) _).le
  refine ⟨r1, ?_, ne_of_gt (lt_of_lt_of_le hpos hr10),
    sqrLength_underflow r1 0 0 (le_trans hr1b hsmall) hz hz⟩
  rw [constMul_eq, hr, Int.cast_zero, round_zero, mul_finite, mul_finite, hr1, zero_mul,
    round_zero]

/-- C7, as stated, fails: with the linear factor 1 the offset of `OFFSET 1e-200
0 0` times the factor is not zero, the pending offset the parser holds is not
the zero vector either, and yet the joint of the CHANNELS block that follows
receives no local origin. -/
theorem C7_counterexample :
    (1 / 10 ^ 200 : ℚ) * 1 ≠ 0 ∧
    pendingOffset (.finite 1) (some (.real "1e-200" (1 / 10 ^ 200), .int "0" 0, .int "0" 0)) ≠
      Vec3d_zeroVec ∧
    ∃ g, RcsGraph_createFromBVHFile 12 (some (hierarchyTokens tinyOffset)) (.finite 1) false =
        some (.ret (some g)) ∧
      g.joints.map (fun j => j.A_JP) = [none] := by
  obtain ⟨r, hr, hr0, hlt⟩ := tiny_pending
  refine ⟨by norm_num, ?_, ?_⟩
  · have hpend : pendingOffset (.finite 1)
        (some (.real "1e-200" (1 / 10 ^ 200), .int "0" 0, .int "0" 0)) =
        Vec3d_constMul (Double.round (1 / 10 ^ 200), Double.round ((0 : Int) : ℚ),
          Double.round ((0 : Int) : ℚ)) (.finite 1) := rfl
    rw [hpend, hr]
    simp only [Vec3d_zeroVec, ne_eq, Prod.mk.injEq, Double.finite.injEq, and_true]
    exact hr0
  · obtain ⟨g, hg, horig⟩ := create_origins tinyOffset [] (.finite 1) false 12 rfl (by decide)
    refine ⟨g, by simpa using hg, ?_⟩
    rw [horig]
    have horigin : Block.origins (.finite 1) tinyOffset =
        [if Double.lt (.finite 0) (Vec3d_sqrLength (Vec3d_constMul
            (Double.round (1 / 10 ^ 200), Double.round ((0 : Int) : ℚ),
              Double.round ((0 : Int) : ℚ)) (.finite 1)))
          then some (Vec3d_constMul
            (Double.round (1 / 10 ^ 200), Double.round ((0 : Int) : ℚ),
              Double.round ((0 : Int) : ℚ)) (.finite 1))
          else none] := rfl
    rw [horigin, hr, hlt]
    rfl

/-- The example of the spec with the linear factor 1. -/
theorem unit_pending :
    pendingOffset (.finite 1) (some (.int "1" 1, .int "2" 2, .int "3" 3)) =
        (.finite 1, .finite 2, .finite 3) ∧
      Double.lt (.finite 0) (Vec3d_sqrLength (.finite 1, .finite 2, .finite 3)) = true := by
  constructor
  · simp [pendingOffset, Offset.vec, Number.val, constMul_eq, mul_finite, round_one,
      round_two, round_three]
  · apply sqrLength_pos
    left
    rw [abs_one]
    exact zpow_le_one_of_nonpos₀ (by norm_num) (by norm_num)

/-- C7, amended: in double arithmetic.  For every well-formed hierarchy the
local origins of the joints of the resulting graph are those of the spec's
rule: an OFFSET `v` immediately followed by a CHANNELS block gives the first
joint of that block the local origin `v * linearScale`, each product rounded
to a double, when the squared length of that vector as the parser computes it
is positive, and no local origin otherwise; the other joints of the block and
the joints of every later CHANNELS block, on the same body or on a JOINT body
without an OFFSET of its own, have none.  For `OFFSET 1 2 3 CHANNELS 1
Xposition` the vector is `(1 * s, 2 * s, 3 * s)` rounded, which with the
linear factor 1 is the local origin `(1, 2, 3)`.  The squared length of a
finite vector is positive when a component is at least `2 ^ (-537)` in
magnitude and is not when every component is at most `2 ^ (-538)` in
magnitude. -/
theorem C7_offset_consumption :
    (∀ (root : Block) (rest : List Token) (s : Double) (z : Bool) (fuel : Nat),
      root.namesFit = true → (hierarchyTokens root).length ≤ fuel →
      ∃ g, RcsGraph_createFromBVHFile fuel (some (hierarchyTokens root ++ rest)) s z =
          some (.ret (some g)) ∧
        g.joints.map (fun j => j.A_JP) = root.origins s) ∧
    (∀ (s : Double) (z : Bool) (fuel : Nat), 12 ≤ fuel →
      ∃ g, RcsGraph_createFromBVHFile fuel (some (hierarchyTokens unitOffset)) s z =
          some (.ret (some g)) ∧
        g.joints.map (fun j => j.A_JP) =
          [if Double.lt (.finite 0) (Vec3d_sqrLength
              ((Double.finite 1).mul s, (Double.finite 2).mul s, (Double.finite 3).mul s))
            then some ((Double.finite 1).mul s, (Double.finite 2).mul s, (Double.finite 3).mul s)
            else none]) ∧
    (∀ (z : Bool) (fuel : Nat), 12 ≤ fuel →
      ∃ g, RcsGraph_createFromBVHFile fuel (some (hierarchyTokens unitOffset)) (.finite 1) z =
          some (.ret (some g)) ∧
        g.joints.map (fun j => j.A_JP) = [some (.finite 1, .finite 2, .finite 3)]) ∧
    (∀ x y z : ℚ,
      (2 : ℚ) ^ (-537 : Int) ≤ |x| ∨ (2 : ℚ) ^ (-537 : Int) ≤ |y| ∨
        (2 : ℚ) ^ (-537 : Int) ≤ |z| →
      Double.lt (.finite 0) (Vec3d_sqrLength (.finite x, .finite y, .finite z)) = true) ∧
    (∀ x y z : ℚ, |x| ≤ 2 ^ (-538 : Int) → |y| ≤ 2 ^ (-538 : Int) → |z| ≤ 2 ^ (-538 : Int) →
      Double.lt (.finite 0) (Vec3d_sqrLength (.finite x, .finite y, .finite z)) = false) := by
  refine ⟨create_origins, ?_, ?_, sqrLength_pos, sqrLength_underflow⟩
  · intro s z fuel hfuel
    obtain ⟨g, hg, horig⟩ := create_origins unitOffset [] s z fuel rfl
      (by simpa [hierarchyTokens, unitOffset, Block.tokens, optOffsetTokens, channelsTokens,
        Blocks.tokens, endTokens, offsetTokens] using hfuel)
    refine ⟨g, by simpa using hg, ?_⟩
    rw [horig]
    simp [unitOffset, Block.origins, Blocks.origins, bodyOrigins, Offset.vec, Number.val,
      constMul_eq, round_one, round_two, round_three]
  · intro z fuel hfuel
    obtain ⟨g, hg, horig⟩ := create_origins unitOffset [] (.finite 1) z fuel rfl
      (by simpa [hierarchyTokens, unitOffset, Block.tokens, optOffsetTokens, channelsTokens,
        Blocks.tokens, endTokens, offsetTokens] using hfuel)
    refine ⟨g, by simpa using hg, ?_⟩
    rw [horig]
    have h := unit_pending
    simp only [pendingOffset] at h
    simp [unitOffset, Block.origins, Blocks.origins, bodyOrigins, h.1, h.2]

theorem C7_witness :
    sampleRoot.namesFit = true ∧ (hierarchyTokens sampleRoot).length ≤ 64 ∧
    ∃ g, RcsGraph_createFromBVHFile 64 (some (hierarchyTokens sampleRoot ++ []))
        (.finite (1 / 100)) true = some (.ret (some g)) ∧
      g.joints.map (fun j => j.A_JP) = sampleRoot.origins (.finite (1 / 100)) :=
  ⟨by decide, by decide,
    C7_offset_consumption.1 sampleRoot [] (.finite (1 / 100)) true 64 (by decide) (by decide)⟩

/-! ## Claim C8: which joints receive the pending offset -/

theorem andThen_eq_ret {α β : Type} {r : Option (Res α)} {k : α → Option (Res β)} {x : β}
    (h : andThen r k = some (.ret x)) : ∃ a, r = some (.ret a) ∧ k a = some (.ret x) := by
  cases r with
  | none => simp [andThen] at h
  | some v =>
    cases v with
    | ret a => exact ⟨a, rfl, h⟩
    | abort => simp [andThen] at h
    | undefined => simp [andThen] at h

theorem discard_eq_ret {r : Option (Res (Bool × St))} {st : St}
    (h : discard r = some (.ret st)) : ∃ b, r = some (.ret (b, st)) := by
  obtain ⟨a, ha, hk⟩ := andThen_eq_ret h
  simp only [Option.some.injEq, Res.ret.injEq] at hk
  subst hk
  exact ⟨a.1, ha⟩

theorem channelsLoop_origins (body : Option Nat) (off : Vec3) :
    ∀ (n i : Nat) (st : St), originsAreFirstChannels st.self →
      (∀ st1, channelsLoop body off n i st = .ret (.next st1) →
        originsAreFirstChannels st1.self) ∧
      (∀ b st1, channelsLoop body off n i st = .ret (.returned b st1) →
        originsAreFirstChannels st1.self) := by
  intro n
  induction n with
  | zero =>
    intro i st hst
    constructor
    · intro st1 h
      simp only [channelsLoop, Res.ret.injEq, Flow.next.injEq] at h
      subst h
      exact hst
    · intro b st1 h
      simp [channelsLoop] at h
  | succ n ih =>
    intro i st hst
    unfold channelsLoop
    simp only []
    split
    · exact ⟨fun _ h => by simp at h, fun _ _ h => by simp at h⟩
    · split
      · exact ⟨fun _ h => by simp at h, fun _ _ h => by simp at h⟩
      · split
        · exact ⟨fun _ h => by simp at h, fun _ _ h => by simp at h⟩
        · split
          · constructor
            · intro st1 h
              simp at h
            · intro b st1 h
              simp only [Res.ret.injEq, Flow.returned.injEq] at h
              obtain ⟨_, rfl⟩ := h
              exact hst
          · apply ih
            intro j hj hne
            simp only [RcsGraph_insertJoint, List.mem_append, List.mem_singleton] at hj
            rcases hj with hj | rfl
            · exact hst j hj hne
            · simp only [ne_eq, ite_eq_right_iff, not_forall] at hne
              obtain ⟨⟨h0, _⟩, _⟩ := hne
              exact h0

theorem tailCheck_origins (call : St → Option Nat → Vec3 → Option (Res (Bool × St)))
    (hcall : ∀ st body off b st1, call st body off = some (.ret (b, st1)) →
      originsAreFirstChannels st.self → originsAreFirstChannels st1.self)
    (st : St) (body : Option Nat) (b : Bool) (st1 : St)
    (h : tailCheck call st body = some (.ret (b, st1))) (hst : originsAreFirstChannels st.self) :
    originsAreFirstChannels st1.self := by
  unfold tailCheck at h
  split at h
  · simp only [Option.some.injEq, Res.ret.injEq, Prod.mk.injEq] at h
    obtain ⟨_, rfl⟩ := h
    exact hst
  · split at h
    · simp only [Option.some.injEq, Res.ret.injEq, Prod.mk.injEq] at h
      obtain ⟨_, rfl⟩ := h
      exact hst
    · split at h
      · simp only [Option.some.injEq, Res.ret.injEq, Prod.mk.injEq] at h
        obtain ⟨_, rfl⟩ := h
        exact hst
      · split at h
        · simp only [Option.some.injEq, Res.ret.injEq, Prod.mk.injEq] at h
          obtain ⟨_, rfl⟩ := h
          exact hst
        · obtain ⟨st2, h2, h3⟩ := andThen_eq_ret h
          obtain ⟨b2, h4⟩ := discard_eq_ret h2
          simp only [Option.some.injEq, Res.ret.injEq, Prod.mk.injEq] at h3
          obtain ⟨_, rfl⟩ := h3
          exact hcall _ _ _ _ _ h4 hst

theorem parseBody_origins (s : Double) (z : Bool)
    (call : St → Option Nat → Vec3 → Option (Res (Bool × St)))
    (hcall : ∀ st body off b st1, call st body off = some (.ret (b, st1)) →
      originsAreFirstChannels st.self → originsAreFirstChannels st1.self)
    (st : St) (body : Option Nat) (off : Vec3) (b : Bool) (st1 : St)
    (hst : originsAreFirstChannels st.self)
    (h : parseBody s z call st body off = some (.ret (b, st1))) :
    originsAreFirstChannels st1.self := by
  unfold parseBody at h
  split at h
  · -- ROOT
    obtain ⟨st2, h2, h3⟩ := andThen_eq_ret h
    obtain ⟨b2, h4⟩ := discard_eq_ret h2
    exact tailCheck_origins call hcall _ _ _ _ h3 (hcall _ _ _ _ _ h4 hst)
  · split at h
    · -- OFFSET
      split at h
      · simp at h
      · obtain ⟨st2, h2, h3⟩ := andThen_eq_ret h
        obtain ⟨b2, h4⟩ := discard_eq_ret h2
        exact tailCheck_origins call hcall _ _ _ _ h3 (hcall _ _ _ _ _ h4 hst)
    · split at h
      · -- CHANNELS
        split at h
        · simp at h
        · next nChannels fd1 _ =>
          have hloop := channelsLoop_origins body off nChannels.toNat 0
            { st with fd := fd1 } hst
          split at h
          · simp at h
          · simp at h
          · next success st2 hl =>
            simp only [Option.some.injEq, Res.ret.injEq, Prod.mk.injEq] at h
            obtain ⟨_, rfl⟩ := h
            exact hloop.2 _ _ hl
          · next st2 hl =>
            obtain ⟨st3, h2, h3⟩ := andThen_eq_ret h
            obtain ⟨b2, h4⟩ := discard_eq_ret h2
            exact tailCheck_origins call hcall _ _ _ _ h3
              (hcall _ _ _ _ _ h4 (hloop.1 st2 hl))
      · split at h
        · -- JOINT
          obtain ⟨p, h2, h3⟩ := andThen_eq_ret h
          split at h3
          · simp at h3
          · exact tailCheck_origins call hcall _ _ _ _ h3 (hcall _ _ _ p.1 p.2 h2 hst)
        · split at h
          · -- End
            simp only [] at h
            split at h
            · simp at h
            · split at h
              · obtain ⟨st2, h2, h3⟩ := andThen_eq_ret h
                obtain ⟨b2, h4⟩ := discard_eq_ret h2
                exact tailCheck_origins call hcall _ _ _ _ h3 (hcall _ _ _ _ _ h4 hst)
              · simp at h
          · exact tailCheck_origins call hcall _ _ _ _ h hst

theorem parseRecursive_origins (s : Double) (z : Bool) :
    ∀ (fuel : Nat) (st : St) (body : Option Nat) (off : Vec3) (b : Bool) (st1 : St),
      parseRecursive s z fuel st body off = some (.ret (b, st1)) →
      originsAreFirstChannels st.self →
      originsAreFirstChannels st1.self := by
  intro fuel
  induction fuel with
  | zero => intro st body off b st1 h; simp [parseRecursive] at h
  | succ n ih =>
    intro st body off b st1 h hst
    exact parseBody_origins s z _ ih st body off b st1 hst h

theorem twoOffsets_parsed :
    RcsGraph_createFromBVHFile 8 (some twoOffsets) (.finite 1) false = some (.ret (some twoOffsetsGraph)) := by
  have r4 : Double.round 4 = .finite 4 := by simpa using round_natCast 4 (by norm_num)
  have r5 : Double.round 5 = .finite 5 := by simpa using round_natCast 5 (by norm_num)
  have r6 : Double.round 6 = .finite 6 := by simpa using round_natCast 6 (by norm_num)
  have h123 := unit_pending.2
  have h456 : Double.lt (.finite 0) (Vec3d_sqrLength (.finite 4, .finite 5, .finite 6)) = true := by
    apply sqrLength_pos
    left
    rw [abs_of_pos (by norm_num)]
    exact le_trans (zpow_le_one_of_nonpos₀ (by norm_num) (by norm_num)) (by norm_num)
  simp +decide [RcsGraph_createFromBVHFile, twoOffsets, nextToken, scanString, Token.text,
    parseRecursive, parseBody, scanVec3, scanDouble, scanCount, scanInt, channelsLoop,
    RcsGraph_insertBody, RcsGraph_insertJoint, jointNameSize, channelOf, STRNCASEEQ, tailCheck,
    discard, andThen, constMul_eq, mul_finite, round_one, round_two, round_three, r4, r5, r6,
    h123, h456, addGeometry, twoOffsetsGraph]

/-- C8, as stated, fails: `RcsGraph_createFromBVHFile` succeeds on `twoOffsets`
and the body `r` of the graph has two joints that received a pending offset as
their local origin. -/
theorem C8_counterexample :
    RcsGraph_createFromBVHFile 8 (some twoOffsets) (.finite 1) false = some (.ret (some twoOffsetsGraph)) ∧
      ¬ oneOriginPerBody twoOffsetsGraph := by
  refine ⟨twoOffsets_parsed, ?_⟩
  intro h
  have := h _ (List.mem_cons_self _ _) _ (List.mem_cons_of_mem _ (List.mem_cons_self _ _))
    rfl (by simp) (by simp)
  simp at this

theorem mem_of_map_none {js : List RcsJoint} {ls : List Label}
    (h : js.map (fun j => j.A_JP) = ls.map fun _ => none) : ∀ j ∈ js, j.A_JP = none := by
  intro j hj
  have hm : j.A_JP ∈ js.map (fun j => j.A_JP) := List.mem_map.2 ⟨j, hj, rfl⟩
  rw [h] at hm
  obtain ⟨_, _, he⟩ := List.mem_map.1 hm
  exact he.symm

theorem body_channelJoints (nm : String) (b : Nat) (off : Vec3) :
    ∀ (ls : List Label) (i : Nat), ∀ j ∈ channelJoints nm b off i ls, j.body = b := by
  intro ls
  induction ls with
  | nil => intro i j hj; simp [channelJoints] at hj
  | cons l ls ih =>
    intro i j hj
    simp only [channelJoints, List.mem_cons] at hj
    rcases hj with rfl | hj
    · rfl
    · exact ih _ j hj

theorem body_ownJoints (nm : String) (b : Nat) :
    ∀ (chans : List (List Label)) (off : Vec3), ∀ j ∈ ownJoints nm b off chans, j.body = b := by
  intro chans
  induction chans with
  | nil => intro off j hj; simp [ownJoints] at hj
  | cons ls cs ih =>
    intro off j hj
    simp only [ownJoints, List.mem_append] at hj
    rcases hj with hj | hj
    · exact body_channelJoints nm b off ls 0 j hj
    · exact ih _ j hj

/-- Among the joints of the CHANNELS blocks of one body only the first joint
of the first block can have a local origin. -/
theorem origin_ownJoints (nm : String) (b : Nat) (off : Vec3) (chans : List (List Label)) :
    ∀ j ∈ ownJoints nm b off chans, j.A_JP ≠ none →
      ∃ l rest later, chans = (l :: rest) :: later ∧ j = l.joint nm b off 0 := by
  intro j hj hne
  cases chans with
  | nil => simp [ownJoints] at hj
  | cons ls cs =>
    simp only [ownJoints, List.mem_append] at hj
    rcases hj with hj | hj
    · cases ls with
      | nil => simp [channelJoints] at hj
      | cons l rest =>
        simp only [channelJoints, List.mem_cons] at hj
        rcases hj with rfl | hj
        · exact ⟨l, rest, cs, rfl, rfl⟩
        · exact absurd (mem_of_map_none (origins_channelJoints_succ nm b off rest 0) j hj) hne
    · have hz := origins_ownJoints_zero nm b cs
      exact absurd (mem_of_map_none hz j hj) hne

mutual
theorem body_block (s : Double) :
    ∀ (blk : Block) (i : Nat), ∀ j ∈ blk.joints s i, i ≤ j.body ∧ j.body < i + blk.size
  | .mk nm off chans kids es, i => by
    intro j hj
    simp only [Block.joints, List.mem_append] at hj
    simp only [Block.size]
    rcases hj with hj | hj
    · have := body_ownJoints nm i chans _ j hj
      omega
    · have := body_blocks s kids (i + 1) j hj
      omega
theorem body_blocks (s : Double) :
    ∀ (bs : Blocks) (i : Nat), ∀ j ∈ bs.joints s i, i ≤ j.body ∧ j.body < i + bs.size
  | .nil, i => by
    intro j hj
    simp [Blocks.joints] at hj
  | .cons blk bs, i => by
    intro j hj
    simp only [Blocks.joints, List.mem_append] at hj
    simp only [Blocks.size]
    rcases hj with hj | hj
    · have := body_block s blk i j hj
      omega
    · have := body_blocks s bs (i + blk.size) j hj
      omega
end

mutual
/-- In a well-formed hierarchy no body has two joints with a local origin. -/
theorem unique_block (s : Double) :
    ∀ (blk : Block) (i : Nat), ∀ j1 ∈ blk.joints s i, ∀ j2 ∈ blk.joints s i,
      j1.body = j2.body → j1.A_JP ≠ none → j2.A_JP ≠ none → j1 = j2
  | .mk nm off chans kids es, i => by
    intro j1 h1 j2 h2 hb hn1 hn2
    simp only [Block.joints, List.mem_append] at h1 h2
    rcases h1 with h1 | h1 <;> rcases h2 with h2 | h2
    · obtain ⟨l1, r1, c1, e1, rfl⟩ := origin_ownJoints nm i _ chans j1 h1 hn1
      obtain ⟨l2, r2, c2, e2, rfl⟩ := origin_ownJoints nm i _ chans j2 h2 hn2
      rw [e1] at e2
      simp only [List.cons.injEq] at e2
      rw [e2.1.1]
    · have := body_ownJoints nm i chans _ j1 h1
      have := body_blocks s kids (i + 1) j2 h2
      omega
    · have := body_ownJoints nm i chans _ j2 h2
      have := body_blocks s kids (i + 1) j1 h1
      omega
    · exact unique_blocks s kids (i + 1) j1 h1 j2 h2 hb hn1 hn2
theorem unique_blocks (s : Double) :
    ∀ (bs : Blocks) (i : Nat), ∀ j1 ∈ bs.joints s i, ∀ j2 ∈ bs.joints s i,
      j1.body = j2.body → j1.A_JP ≠ none → j2.A_JP ≠ none → j1 = j2
  | .nil, i => by
    intro j1 h1
    simp [Blocks.joints] at h1
  | .cons blk bs, i => by
    intro j1 h1 j2 h2 hb hn1 hn2
    simp only [Blocks.joints, List.mem_append] at h1 h2
    rcases h1 with h1 | h1 <;> rcases h2 with h2 | h2
    · exact unique_block s blk i j1 h1 j2 h2 hb hn1 hn2
    · have := body_block s blk i j1 h1
      have := body_blocks s bs (i + blk.size) j2 h2
      omega
    · have := body_block s blk i j2 h2
      have := body_blocks s bs (i + blk.size) j1 h1
      omega
    · exact unique_blocks s bs (i + blk.size) j1 h1 j2 h2 hb hn1 hn2
end

/-- The first-channel property, for every token stream. -/
theorem create_origins_first (fuel : Nat) (fd : List Token) (s : Double) (z : Bool)
    (g : RcsGraph)
    (h : RcsGraph_createFromBVHFile fuel (some fd) s z = some (.ret (some g))) :
    originsAreFirstChannels g := by
  unfold RcsGraph_createFromBVHFile at h
  simp only [] at h
  split at h
  · simp at h
  · split at h
    · simp at h
    · obtain ⟨p, h1, h2⟩ := andThen_eq_ret h
      split at h2
      · simp at h2
      · simp only [Option.some.injEq, Res.ret.injEq] at h2
        subst h2
        have hinit : originsAreFirstChannels
            (if z = true then RcsGraph_insertBody { bodies := [], joints := [] } none "BVHROOT" true
              else { bodies := [], joints := [] }) := by
          intro j hj
          cases z <;> simp [RcsGraph_insertBody] at hj
        exact parseRecursive_origins s z fuel _ _ _ p.1 p.2 h1 hinit

/-- C8, amended.  For every token stream on which `RcsGraph_createFromBVHFile`
succeeds, every joint of the graph that received a pending offset as its local
origin was created as the first channel (loop counter 0) of its CHANNELS
block.  For every well-formed hierarchy, in which a block holds at most one
OFFSET, before its CHANNELS blocks, the parser succeeds and each body of the
graph has at most one joint that received a pending offset as its local
origin. -/
theorem C8_origin_only_on_first_channel :
    (∀ (fuel : Nat) (fd : List Token) (s : Double) (z : Bool) (g : RcsGraph),
      RcsGraph_createFromBVHFile fuel (some fd) s z = some (.ret (some g)) →
      originsAreFirstChannels g) ∧
    (∀ (root : Block) (rest : List Token) (s : Double) (z : Bool) (fuel : Nat),
      root.namesFit = true → (hierarchyTokens root).length ≤ fuel →
      ∃ g, RcsGraph_createFromBVHFile fuel (some (hierarchyTokens root ++ rest)) s z =
          some (.ret (some g)) ∧
        oneOriginPerBody g ∧ originsAreFirstChannels g) := by
  refine ⟨create_origins_first, ?_⟩
  intro root rest s z fuel hfit hfuel
  obtain ⟨g, hg, _, hjoints⟩ := create_wellFormed root rest s z fuel hfit hfuel
  refine ⟨g, hg, ?_, create_origins_first _ _ _ _ _ hg⟩
  intro j1 h1 j2 h2
  rw [hjoints] at h1 h2
  exact unique_block s root _ j1 h1 j2 h2

theorem C8_witness :
    originsAreFirstChannels twoOffsetsGraph ∧
    ∃ g, RcsGraph_createFromBVHFile 64 (some (hierarchyTokens sampleRoot ++ [])) (.finite 1)
        false = some (.ret (some g)) ∧
      oneOriginPerBody g ∧ originsAreFirstChannels g :=
  ⟨C8_origin_only_on_first_channel.1 8 twoOffsets (.finite 1) false twoOffsetsGraph
      twoOffsets_parsed,
    C8_origin_only_on_first_channel.2 sampleRoot [] (.finite 1) false 64 (by decide)
      (by decide)⟩

/-! ## Claim C9: the Channel Mapper table -/

/-- C9: one iteration of the CHANNELS loop on any of the six labels inserts a
joint whose motion type, axis index and range are those of the Channel Mapper
table, whatever the rest of the file, the pending offset and the loop counter
are; in every row `q_min = -q_max`, and the position and the rotation label of
one letter have the same axis index. -/
theorem C9_channel_mapper_table (l : Label) (b : Nat) (bd : RcsBody) (g : RcsGraph)
    (buf : String) (fd : List Token) (offset : Vec3) (i : Nat)
    (hb : g.bodies[b]? = some bd) (hname : bd.name.length ≤ 63) :
    (∃ jnt, channelsLoop (some b) offset 1 i { buf := buf, self := g, fd := .word l.text :: fd } =
        .ret (.next { buf := l.text, self := RcsGraph_insertJoint g jnt, fd := fd }) ∧
      (jnt.type, jnt.dirIdx, jnt.q_min, jnt.q_max) = channelTable l ∧ jnt.q_min = -jnt.q_max) ∧
    (channelTable .Xposition).2.1 = (channelTable .Xrotation).2.1 ∧
    (channelTable .Yposition).2.1 = (channelTable .Yrotation).2.1 ∧
    (channelTable .Zposition).2.1 = (channelTable .Zrotation).2.1 := by
  refine ⟨?_, rfl, rfl, rfl⟩
  have hsize : ¬ 128 < jointNameSize bd.name l.text := by
    simp only [jointNameSize, length_label]
    omega
  refine ⟨l.joint bd.name b offset i, ?_, ?_, ?_⟩
  · simp only [channelsLoop, nextToken, scanString, Token.text, hb, hsize, if_false,
      channelOf_label l bd.name b offset i]
    rfl
  · cases l <;> rfl
  · simp [Label.joint]

theorem C9_witness :
    (∃ jnt, channelsLoop (some 0) (.finite 1, .finite 2, .finite 3) 1 0
        { buf := "3", self := sampleGraph, fd := .word Label.Zrotation.text :: [.word "\x7d"] } =
        .ret (.next { buf := Label.Zrotation.text, self := RcsGraph_insertJoint sampleGraph jnt,
                      fd := [.word "\x7d"] }) ∧
      (jnt.type, jnt.dirIdx, jnt.q_min, jnt.q_max) = channelTable .Zrotation ∧
      jnt.q_min = -jnt.q_max) ∧
    (channelTable .Xposition).2.1 = (channelTable .Xrotation).2.1 ∧
    (channelTable .Yposition).2.1 = (channelTable .Yrotation).2.1 ∧
    (channelTable .Zposition).2.1 = (channelTable .Zrotation).2.1 :=
  C9_channel_mapper_table .Zrotation 0 _ sampleGraph "3" [.word "\x7d"] (.finite 1, .finite 2, .finite 3) 0 rfl
    (by decide)

/-! ## Claim C10: the keyword scan -/

/-- For a token that fits the 32-byte buffer of `findKeyword`, the comparison
`STRNCASEEQ(buf, keyword, 32)` is equality ignoring case. -/
theorem STRNCASEEQ_eq_STRCASEEQ (a keyword : String) (h : a.length ≤ 31) :
    STRNCASEEQ a keyword 32 = STRCASEEQ a keyword := by
  have ha : a.toList.length ≤ 31 := h
  unfold STRNCASEEQ STRCASEEQ
  rw [List.take_of_length_le (by omega)]
  by_cases hk : keyword.toList.length ≤ 32
  · rw [List.take_of_length_le hk]
  · have h1 : (List.map Char.toLower a.toList == List.map Char.toLower keyword.toList) = false := by
      rw [beq_eq_false_iff_ne]
      intro hc
      have := congrArg List.length hc
      simp only [List.length_map] at this
      omega
    have h2 : (List.map Char.toLower a.toList ==
        List.map Char.toLower (keyword.toList.take 32)) = false := by
      rw [beq_eq_false_iff_ne]
      intro hc
      have := congrArg List.length hc
      simp only [List.length_map, List.length_take] at this
      omega
    rw [h1, h2]

theorem findKeyword_absent (keyword : String) :
    ∀ fd : List Token, (∀ t ∈ fd, t.text.length ≤ 31) →
      (∀ t ∈ fd, STRCASEEQ t.text keyword = false) → findKeyword keyword fd = (false, []) := by
  intro fd
  induction fd with
  | nil => intro _ _; rfl
  | cons t rest ih =>
    intro hfit hno
    have ht := hno t (by simp)
    rw [← STRNCASEEQ_eq_STRCASEEQ _ _ (hfit t (by simp))] at ht
    simp only [findKeyword, ht, Bool.false_eq_true, if_false]
    exact ih (fun u hu => hfit u (List.mem_cons_of_mem _ hu))
      (fun u hu => hno u (List.mem_cons_of_mem _ hu))

theorem findKeyword_found (keyword : String) :
    ∀ fd : List Token, (∀ t ∈ fd, t.text.length ≤ 31) → (findKeyword keyword fd).1 = true →
      ∃ pre t post, fd = pre ++ t :: post ∧ (∀ u ∈ pre, STRCASEEQ u.text keyword = false) ∧
        STRCASEEQ t.text keyword = true ∧ (findKeyword keyword fd).2 = post := by
  intro fd
  induction fd with
  | nil => intro _ h; simp [findKeyword] at h
  | cons t rest ih =>
    intro hfit h
    have hn := STRNCASEEQ_eq_STRCASEEQ t.text keyword (hfit t (by simp))
    by_cases ht : STRCASEEQ t.text keyword = true
    · refine ⟨[], t, rest, rfl, by simp, ht, ?_⟩
      simp [findKeyword, hn, ht]
    · simp only [Bool.not_eq_true] at ht
      simp only [findKeyword, hn, ht, Bool.false_eq_true, if_false] at h ⊢
      obtain ⟨pre, u, post, rfl, hpre, hu, hpost⟩ :=
        ih (fun u hu => hfit u (List.mem_cons_of_mem _ hu)) h
      refine ⟨t :: pre, u, post, rfl, ?_, hu, hpost⟩
      intro v hv
      rcases List.mem_cons.1 hv with rfl | hv
      · exact ht
      · exact hpre v hv

/-- C10: for every keyword and every stream of tokens that fit its buffer (at
most 31 characters, as `%31s` delivers them), `findKeyword` returns true if and
only if some token equals the keyword ignoring case; when it returns true the
file is left immediately after the first such token, all tokens before it
having been read; when no token matches it returns false with the whole input
consumed, and `RcsGraph_createTrajectoryFromBVHFile` then returns the null
pointer for a file without the keyword MOTION. -/
theorem C10_keyword_scan (keyword : String) (fd : List Token)
    (hfit : ∀ t ∈ fd, t.text.length ≤ 31) :
    ((findKeyword keyword fd).1 = true ↔ ∃ t ∈ fd, STRCASEEQ t.text keyword = true) ∧
    ((findKeyword keyword fd).1 = true →
      ∃ pre t post, fd = pre ++ t :: post ∧ (∀ u ∈ pre, STRCASEEQ u.text keyword = false) ∧
        STRCASEEQ t.text keyword = true ∧ (findKeyword keyword fd).2 = post) ∧
    ((∀ t ∈ fd, STRCASEEQ t.text keyword = false) → findKeyword keyword fd = (false, [])) ∧
    ((∀ t ∈ fd, STRCASEEQ t.text "MOTION" = false) →
      ∀ (fuel : Nat) (graph : RcsGraph) (linearScaleToSI angularScaleToSI : ℚ),
        RcsGraph_createTrajectoryFromBVHFile fuel graph (some fd) linearScaleToSI
          angularScaleToSI = some (.ret (none, none))) := by
  refine ⟨⟨?_, ?_⟩, findKeyword_found keyword fd hfit, findKeyword_absent keyword fd hfit, ?_⟩
  · intro h
    obtain ⟨pre, t, post, rfl, _, ht, _⟩ := findKeyword_found keyword fd hfit h
    exact ⟨t, by simp, ht⟩
  · rintro ⟨t, ht, hmatch⟩
    by_contra hc
    have hall : ∀ u ∈ fd, STRCASEEQ u.text keyword = false := by
      intro u hu
      by_contra hu1
      simp only [Bool.not_eq_false] at hu1
      -- a matching token makes the scan succeed
      have : ∀ fd : List Token, (∀ t ∈ fd, t.text.length ≤ 31) → ∀ u ∈ fd,
          STRCASEEQ u.text keyword = true → (findKeyword keyword fd).1 = true := by
        intro fd
        induction fd with
        | nil => intro _ u hu; simp at hu
        | cons v rest ih =>
          intro hfit u hu hmatch
          have hn := STRNCASEEQ_eq_STRCASEEQ v.text keyword (hfit v (by simp))
          by_cases hv : STRCASEEQ v.text keyword = true
          · simp [findKeyword, hn, hv]
          · simp only [Bool.not_eq_true] at hv
            simp only [findKeyword, hn, hv, Bool.false_eq_true, if_false]
            rcases List.mem_cons.1 hu with rfl | hu
            · rw [hmatch] at hv
              cases hv
            · exact ih (fun w hw => hfit w (List.mem_cons_of_mem _ hw)) u hu hmatch
      exact hc (this fd hfit u hu hu1)
    rw [hall t ht] at hmatch
    cases hmatch
  · intro hno fuel graph lin ang
    simp [RcsGraph_createTrajectoryFromBVHFile, findKeyword_absent "MOTION" fd hfit hno]

theorem C10_witness :
    ((findKeyword "MOTION" sampleMotion).1 = true ↔
      ∃ t ∈ sampleMotion, STRCASEEQ t.text "MOTION" = true) ∧
    ((findKeyword "MOTION" sampleMotion).1 = true →
      ∃ pre t post, sampleMotion = pre ++ t :: post ∧
        (∀ u ∈ pre, STRCASEEQ u.text "MOTION" = false) ∧
        STRCASEEQ t.text "MOTION" = true ∧ (findKeyword "MOTION" sampleMotion).2 = post) ∧
    ((∀ t ∈ sampleMotion, STRCASEEQ t.text "MOTION" = false) →
      findKeyword "MOTION" sampleMotion = (false, [])) ∧
    ((∀ t ∈ sampleMotion, STRCASEEQ t.text "MOTION" = false) →
      ∀ (fuel : Nat) (graph : RcsGraph) (linearScaleToSI angularScaleToSI : ℚ),
        RcsGraph_createTrajectoryFromBVHFile fuel graph (some sampleMotion) linearScaleToSI
          angularScaleToSI = some (.ret (none, none))) :=
  C10_keyword_scan "MOTION" sampleMotion (by decide)

/-! ## The trajectory reader on a file of numbers -/

theorem numbers_numeric (vals : List Number) :
    ∀ u ∈ vals.map Number.token, u.value ≠ none := by
  intro u hu
  obtain ⟨x, _, rfl⟩ := List.mem_map.1 hu
  exact value_number x

theorem value_token (x : Number) : x.token.value = some x.val := by
  cases x <;> rfl

/-- On a file of `k` numbers the fill loop stores them over `k` consecutive
entries of `ele`, from the entry it starts at, and leaves every other entry as
it was. -/
theorem fillLoop_numbers :
    ∀ (vals : List Number) (fuel : Nat) (pre mid post : List ℚ),
      mid.length = vals.length → vals.length < fuel → pre.length + vals.length < 2 ^ 32 →
      fillLoop fuel (vals.map Number.token) pre.length (pre ++ (mid ++ post)) =
        some (.ret (pre ++ (vals.map Number.val ++ post))) := by
  intro vals
  induction vals with
  | nil =>
    intro fuel pre mid post hmid hfuel _
    obtain ⟨n, rfl⟩ : ∃ n, fuel = n + 1 := ⟨fuel - 1, by simp at hfuel; omega⟩
    have : mid = [] := List.length_eq_zero.1 (by simpa using hmid)
    subst this
    simp [fillLoop, scanDouble]
  | cons x xs ih =>
    intro fuel pre mid post hmid hfuel hlt
    obtain ⟨n, rfl⟩ : ∃ n, fuel = n + 1 := ⟨fuel - 1, by simp at hfuel; omega⟩
    cases mid with
    | nil => simp at hmid
    | cons m ms =>
      simp only [List.length_cons] at hmid hfuel hlt
      have hin : pre.length < (pre ++ (m :: ms ++ post)).length := by
        simp only [List.length_append, List.length_cons]
        omega
      have hmod : (pre.length + 1) % 2 ^ 32 = (pre ++ [x.val]).length := by
        rw [List.length_append, List.length_singleton]
        exact Nat.mod_eq_of_lt (by omega)
      have hset : (pre ++ (m :: ms ++ post)).set pre.length x.val =
          (pre ++ [x.val]) ++ (ms ++ post) := by
        rw [List.set_append_right _ _ (Nat.le_refl _)]
        simp
      simp only [List.map_cons, fillLoop, scanDouble_number, hin, if_true, hmod, hset]
      rw [ih n (pre ++ [x.val]) ms post (by omega) (by omega)
        (by rw [List.length_append, List.length_singleton]; omega)]
      simp

/-- The part of `motionData` after the probe loop (lines 497-543), `numValues`
being the counter after its decrement. -/
theorem motionData_numbers_eq (fuel : Nat) (graph : RcsGraph) (F : Int) (vals : List Number)
    (lin ang : ℚ) (hk : vals.length + 1 < 2 ^ 32) (hfuel : vals.length < fuel) :
    motionData fuel graph F (vals.map Number.token) lin ang =
      if toUnsigned F = 0 then some .undefined
      else if vals.length % toUnsigned F ≠ 0 then some (.ret none)
      else if (graph.dof * toUnsigned F) % 2 ^ 32 ≠ vals.length then some .abort
      else
        andThen (fillLoop fuel (vals.map Number.token) 0
            (MatNd_create (toUnsigned F)
              (toUnsigned (Int.tdiv (toSigned vals.length) F))).ele) fun ele =>
          if 0 < toUnsigned F ∧
              toUnsigned (Int.tdiv (toSigned vals.length) F) ≠ graph.dof then some .undefined
          else some (.ret (some
            { m := toUnsigned F
              n := toUnsigned (Int.tdiv (toSigned vals.length) F)
              ele := scaleRows
                { m := toUnsigned F
                  n := toUnsigned (Int.tdiv (toSigned vals.length) F)
                  ele := ele } (scaleArr graph lin ang) })) := by
  have hprobe := probeLoop_numbers fuel (vals.map Number.token) 0 (numbers_numeric vals)
    (by simpa using hfuel)
  have hcount : ((0 + (vals.map Number.token).length + 1) % 2 ^ 32 + 2 ^ 32 - 1) % 2 ^ 32 =
      vals.length := by
    simp only [List.length_map]
    omega
  simp only [motionData, hprobe, hcount, MatNd_create]

/-! ## Claim C11: a column count other than the degree-of-freedom count -/

theorem toUnsigned_pos (F : Int) (hF : 0 < F) (hF1 : F < 2 ^ 31) : toUnsigned F = F.toNat := by
  unfold toUnsigned
  omega

/-- C11, as stated, fails: for `Frames: 2` with six values (three columns) and
a graph with two degrees of freedom the process exits in the `RCHECK` of line
513; no null pointer is returned. -/
theorem C11_counterexample :
    RcsGraph_createTrajectoryFromBVHFile 7 sampleGraph
      (some (.word "MOTION" :: motionSection "2" 2 (.real "0.04" (1 / 25)) sixValues)) 1 1 =
      some .abort := by
  rfl

/-- C11, amended: for a motion section that declares a positive frame count `F`
and holds `k` numeric values (fewer than 2^31), `k` a multiple of `F`, with a
column count `k / F` other than the degree-of-freedom count of the graph (whose
product with `F` is below 2^32), `RcsGraph_createTrajectoryFromBVHFile` does
not return: the process exits in the `RCHECK` of line 513, which stands after
the `MatNd_create` of line 511. -/
theorem C11_dof_mismatch_aborts (fuel : Nat) (graph : RcsGraph) (fd : List Token)
    (tx : String) (F : Int) (t : Number) (vals : List Number)
    (linearScaleToSI angularScaleToSI : ℚ)
    (hfind : findKeyword "MOTION" fd = (true, motionSection tx F t vals))
    (hF : 0 < F) (hF1 : F < 2 ^ 31) (hk : vals.length < 2 ^ 31)
    (hmod : vals.length % F.toNat = 0) (hcols : vals.length / F.toNat ≠ graph.dof)
    (hdof : graph.dof * F.toNat < 2 ^ 32) (hfuel : vals.length < fuel) :
    RcsGraph_createTrajectoryFromBVHFile fuel graph (some fd) linearScaleToSI angularScaleToSI =
      some .abort := by
  have hU := toUnsigned_pos F hF hF1
  have hU0 : F.toNat ≠ 0 := by omega
  have hne : graph.dof * F.toNat % 2 ^ 32 ≠ vals.length := by
    rw [Nat.mod_eq_of_lt hdof]
    intro hc
    apply hcols
    rw [← hc]
    exact Nat.mul_div_cancel _ (by omega)
  simp only [RcsGraph_createTrajectoryFromBVHFile, hfind, motionHeader_section,
    motionData_numbers_eq fuel graph F vals _ _ (by omega) hfuel, hU, hU0, if_false, hmod,
    ne_eq, not_true_eq_false, hne, not_false_eq_true, if_true, andThen]

theorem C11_witness :
    RcsGraph_createTrajectoryFromBVHFile 7 sampleGraph
      (some (.word "HIERARCHY" :: .word "MOTION" ::
        motionSection "2" 2 (.real "0.04" (1 / 25)) sixValues)) 10 100 = some .abort :=
  C11_dof_mismatch_aborts 7 sampleGraph _ "2" 2 (.real "0.04" (1 / 25)) sixValues 10 100
    rfl (by decide) (by decide) (by decide) (by decide) (by decide) (by decide) (by decide)

/-! ## Claim C12: the case of channel labels -/

theorem STRNCASEEQ_label (buf : String) (l : Label) (h : buf.length ≤ 63) :
    STRNCASEEQ buf l.text 63 = STRCASEEQ buf l.text := by
  have hb : buf.toList.length ≤ 63 := h
  have hl : l.text.toList.length ≤ 63 := by
    have := length_label l
    have h9 : l.text.toList.length = 9 := this
    omega
  unfold STRNCASEEQ STRCASEEQ
  rw [List.take_of_length_le hb, List.take_of_length_le hl]

/-- The label chain in terms of equality ignoring case. -/
theorem channelOf_eq (buf : String) (h : buf.length ≤ 63) :
    (∀ l : Label, STRCASEEQ buf l.text = true → channelOf buf = some (channelTable l |>.1,
        (channelTable l).2.2.1, (channelTable l).2.2.2, (channelTable l).2.1)) ∧
    ((∀ l : Label, STRCASEEQ buf l.text = false) → channelOf buf = none) := by
  have e1 := STRNCASEEQ_label buf .Xposition h
  have e2 := STRNCASEEQ_label buf .Yposition h
  have e3 := STRNCASEEQ_label buf .Zposition h
  have e4 := STRNCASEEQ_label buf .Xrotation h
  have e5 := STRNCASEEQ_label buf .Yrotation h
  have e6 := STRNCASEEQ_label buf .Zrotation h
  simp only [Label.text] at e1 e2 e3 e4 e5 e6
  have hne : ∀ l1 l2 : Label, STRCASEEQ buf l1.text = true → STRCASEEQ buf l2.text = true →
      l1 = l2 := by
    intro l1 l2 h1 h2
    simp only [STRCASEEQ, beq_iff_eq] at h1 h2
    rw [h1] at h2
    revert h2
    cases l1 <;> cases l2 <;> decide
  constructor
  · intro l hl
    have hothers : ∀ l2 : Label, l2 ≠ l → STRCASEEQ buf l2.text = false := by
      intro l2 hne2
      by_contra hc
      simp only [Bool.not_eq_false] at hc
      exact hne2 (hne l2 l hc hl)
    unfold channelOf
    rw [e1, e2, e3, e4, e5, e6]
    cases l
    · have := hl
      simp only [Label.text] at this
      simp [this, channelTable]
    · have := hl
      have o1 := hothers .Xposition (by decide)
      simp only [Label.text] at this o1
      simp [this, o1, channelTable]
    · have := hl
      have o1 := hothers .Xposition (by decide)
      have o2 := hothers .Yposition (by decide)
      simp only [Label.text] at this o1 o2
      simp [this, o1, o2, channelTable]
    · have := hl
      have o1 := hothers .Xposition (by decide)
      have o2 := hothers .Yposition (by decide)
      have o3 := hothers .Zposition (by decide)
      simp only [Label.text] at this o1 o2 o3
      simp [this, o1, o2, o3, channelTable]
    · have := hl
      have o1 := hothers .Xposition (by decide)
      have o2 := hothers .Yposition (by decide)
      have o3 := hothers .Zposition (by decide)
      have o4 := hothers .Xrotation (by decide)
      simp only [Label.text] at this o1 o2 o3 o4
      simp [this, o1, o2, o3, o4, channelTable]
    · have := hl
      have o1 := hothers .Xposition (by decide)
      have o2 := hothers .Yposition (by decide)
      have o3 := hothers .Zposition (by decide)
      have o4 := hothers .Xrotation (by decide)
      have o5 := hothers .Yrotation (by decide)
      simp only [Label.text] at this o1 o2 o3 o4 o5
      simp [this, o1, o2, o3, o4, o5, channelTable]
  · intro hno
    have o1 := hno .Xposition
    have o2 := hno .Yposition
    have o3 := hno .Zposition
    have o4 := hno .Xrotation
    have o5 := hno .Yrotation
    have o6 := hno .Zrotation
    simp only [Label.text] at o1 o2 o3 o4 o5 o6
    unfold channelOf
    rw [e1, e2, e3, e4, e5, e6]
    simp [o1, o2, o3, o4, o5, o6]

/-- C12, as stated, fails: the label `xposition`, which is none of the six
strings character for character, is accepted, and its joint is a translation
along X. -/
theorem C12_counterexample :
    ∃ g, RcsGraph_createFromBVHFile 8
        (some [.word "HIERARCHY", .word "ROOT", .word "r", .word "\x7b", .word "CHANNELS",
          .int "1" 1, .word "xposition", .word "\x7d"]) (.finite 1) false = some (.ret (some g)) ∧
      g.joints.map (fun j => (j.name, j.type)) =
        [("r_jnt_xposition", RcsJointType.RCSJOINT_TRANS_X)] :=
  ⟨_, rfl, rfl⟩

/-- C12, amended: one iteration of the CHANNELS loop accepts a label (a token
of at most 63 characters whose joint name fits its buffer) if and only if it
equals one of the six strings when letter case is ignored: it then inserts the
joint of that label and goes on; on any other token it inserts nothing and
the function returns false. -/
theorem C12_labels_ignore_case (t : Token) (b : Nat) (bd : RcsBody) (g : RcsGraph)
    (buf : String) (fd : List Token) (offset : Vec3) (i : Nat)
    (hb : g.bodies[b]? = some bd) (hlen : t.text.length ≤ 63)
    (hsize : jointNameSize bd.name t.text ≤ 128) :
    (∀ l : Label, STRCASEEQ t.text l.text = true →
      ∃ jnt, channelsLoop (some b) offset 1 i { buf := buf, self := g, fd := t :: fd } =
          .ret (.next { buf := t.text, self := RcsGraph_insertJoint g jnt, fd := fd }) ∧
        (jnt.type, jnt.dirIdx, jnt.q_min, jnt.q_max) = channelTable l) ∧
    ((∀ l : Label, STRCASEEQ t.text l.text = false) →
      channelsLoop (some b) offset 1 i { buf := buf, self := g, fd := t :: fd } =
        .ret (.returned false { buf := t.text, self := g, fd := fd })) := by
  have hsz : ¬ 128 < jointNameSize bd.name t.text := by omega
  obtain ⟨hyes, hno⟩ := channelOf_eq t.text hlen
  constructor
  · intro l hl
    refine ⟨{ name := bd.name ++ "_jnt_" ++ t.text, body := b, type := (channelTable l).1,
              q_min := (channelTable l).2.2.1, q_max := (channelTable l).2.2.2,
              dirIdx := (channelTable l).2.1,
              A_JP := if i = 0 ∧ Double.lt (.finite 0) (Vec3d_sqrLength offset) then some offset else none,
              chan := i }, ?_, rfl⟩
    simp only [channelsLoop, nextToken, scanString, hb, hsz, if_false, hyes l hl]
  · intro hall
    simp only [channelsLoop, nextToken, scanString, hb, hsz, if_false, hno hall]

theorem C12_witness :
    ∃ jnt, channelsLoop (some 0) (.finite 1, .finite 2, .finite 3) 1 0
        { buf := "1", self := sampleGraph, fd := .word "xPOSITION" :: [] } =
        .ret (.next { buf := (Token.word "xPOSITION").text,
                      self := RcsGraph_insertJoint sampleGraph jnt, fd := [] }) ∧
      (jnt.type, jnt.dirIdx, jnt.q_min, jnt.q_max) = channelTable .Xposition :=
  (C12_labels_ignore_case (.word "xPOSITION") 0 _ sampleGraph "1" [] (.finite 1, .finite 2, .finite 3) 0 rfl
    (by decide) (by decide)).1 .Xposition (by decide)

/-! ## Claim C13: an unrecognised token -/

/-- A frame entered on an unrecognised token calls `parseRecursive` on the very
same state, with the pending offset set to zero, and returns true when that call
returns. -/
theorem parseRecursive_unrecognised (s : Double) (z : Bool) (st : St) (body : Option Nat)
    (off : Vec3) (h : unrecognised st.buf = true) (fuel : Nat) :
    parseRecursive s z (fuel + 1) st body off =
      andThen (discard (parseRecursive s z fuel st body Vec3d_zeroVec))
        fun st1 => some (.ret (true, st1)) := by
  simp only [unrecognised, Bool.and_eq_true, Bool.not_eq_true'] at h
  obtain ⟨⟨⟨⟨⟨⟨⟨⟨h1, h2⟩, h3⟩, h4⟩, h5⟩, h6⟩, h7⟩, h8⟩, h9⟩ := h
  simp only [parseRecursive, parseBody, tailCheck, h1, h2, h3, h4, h5, h6, h7, h8, h9,
    Bool.false_eq_true, if_false]

theorem parseRecursive_unrecognised_none (s : Double) (z : Bool) (st : St)
    (h : unrecognised st.buf = true) :
    ∀ (fuel : Nat) (body : Option Nat) (off : Vec3),
      parseRecursive s z fuel st body off = none := by
  intro fuel
  induction fuel with
  | zero => intro body off; rfl
  | succ n ih =>
    intro body off
    rw [parseRecursive_unrecognised s z st body off h, ih]
    rfl

/-- C13, as stated, fails: with the unrecognised token `Foo` inserted where a
keyword is expected, `HIERARCHY ROOT r { Foo }`, `RcsGraph_createFromBVHFile`
does not return, whatever the number of frames, while on `HIERARCHY ROOT r { }`
it returns a graph. -/
theorem C13_counterexample :
    (∀ fuel : Nat, RcsGraph_createFromBVHFile fuel
      (some [.word "HIERARCHY", .word "ROOT", .word "r", .word "\x7b", .word "Foo",
        .word "\x7d"]) (.finite 1) false = none) ∧
    (∃ g, RcsGraph_createFromBVHFile 2
      (some [.word "HIERARCHY", .word "ROOT", .word "r", .word "\x7b", .word "\x7d"]) (.finite 1) false =
        some (.ret (some g))) := by
  refine ⟨?_, ⟨_, rfl⟩⟩
  intro fuel
  cases fuel with
  | zero => rfl
  | succ n =>
    have h := parseRecursive_unrecognised_none (.finite 1) false
      { buf := "Foo", self := RcsGraph_insertBody { bodies := [], joints := [] } none "r" false,
        fd := [.word "\x7d"] } (by decide) n (some 0) Vec3d_zeroVec
    simp +decide [RcsGraph_createFromBVHFile, nextToken, scanString, Token.text, parseRecursive,
      parseBody, RcsGraph_insertBody, discard, andThen] at h ⊢
    simp [h]

/-- C13, amended: when the current token is neither a recognised keyword nor a
terminal, the frame reads nothing: it re-enters `parseRecursive` on the same
token, the same file position and the same current body, with the pending
offset set to zero, and returns true once that call returns.  Such a step
consumes no token, and the call does not return, whatever the number of frames
given. -/
theorem C13_unrecognised_token_is_not_skipped (s : Double) (z : Bool) (st : St)
    (body : Option Nat) (off : Vec3) (h : unrecognised st.buf = true) :
    (∀ fuel : Nat, parseRecursive s z (fuel + 1) st body off =
      andThen (discard (parseRecursive s z fuel st body Vec3d_zeroVec))
        fun st1 => some (.ret (true, st1))) ∧
    (∀ fuel : Nat, parseRecursive s z fuel st body off = none) :=
  ⟨parseRecursive_unrecognised s z st body off h,
    fun fuel => parseRecursive_unrecognised_none s z st h fuel body off⟩

theorem C13_witness :
    (∀ fuel : Nat, parseRecursive (.finite 1) false (fuel + 1)
        { buf := "Foo", self := sampleGraph, fd := [.word "\x7d"] } (some 0) (.finite 1, .finite 2, .finite 3) =
      andThen (discard (parseRecursive (.finite 1) false fuel
          { buf := "Foo", self := sampleGraph, fd := [.word "\x7d"] } (some 0) Vec3d_zeroVec))
        fun st1 => some (.ret (true, st1))) ∧
    (∀ fuel : Nat, parseRecursive (.finite 1) false fuel
        { buf := "Foo", self := sampleGraph, fd := [.word "\x7d"] } (some 0) (.finite 1, .finite 2, .finite 3) = none) :=
  C13_unrecognised_token_is_not_skipped (.finite 1) false
    { buf := "Foo", self := sampleGraph, fd := [.word "\x7d"] } (some 0) (.finite 1, .finite 2, .finite 3) (by decide)

/-! ## Claims C14 and C15: End Site and the closing brace of a JOINT block -/

/-- C14, as stated, fails: `End Foo [ BAR 1 2 3 }` is not rejected; on
`HIERARCHY ROOT r { End Foo [ BAR 1 2 3 } }` the parser returns a graph. -/
theorem C14_counterexample :
    ∃ g, RcsGraph_createFromBVHFile 4
        (some [.word "HIERARCHY", .word "ROOT", .word "r", .word "\x7b", .word "End",
          .word "Foo", .word "[", .word "BAR", .int "1" 1, .int "2" 2, .int "3" 3,
          .word "\x7d", .word "\x7d"]) (.finite 1) false = some (.ret (some g)) ∧
      g.nesting = [("r", none)] :=
  ⟨_, rfl, rfl⟩

/-- C14, amended: after the token `End` the parser reads three tokens without
looking at them, three numbers, and one more token, and only that last token is
checked: when it is `}` the frame attaches the sphere and goes on with the next
token, whatever the three tokens read in the places of `Site`, `{` and `OFFSET`
were; when it is not `}` the process exits in `RCHECK`. -/
theorem C14_end_site_checks_closing_brace (s : Double) (z : Bool) (n : Nat) (g : RcsGraph)
    (b : Nat) (off : Vec3) (t1 t2 t3 : Token) (x y z1 : Number) (c : Token)
    (fd : List Token) :
    (STREQ c.text "\x7d" = true →
      parseRecursive s z (n + 1)
        { buf := "End", self := g,
          fd := t1 :: t2 :: t3 :: x.token :: y.token :: z1.token :: c :: fd } (some b) off =
      andThen (discard (parseRecursive s z n
          (nextToken { buf := c.text, self := RcsBody_addShape g b .RCSSHAPE_SPHERE, fd := fd })
          (some b) Vec3d_zeroVec))
        fun st => tailCheck (parseRecursive s z n) st (some b)) ∧
    (STREQ c.text "\x7d" = false →
      parseRecursive s z (n + 1)
        { buf := "End", self := g,
          fd := t1 :: t2 :: t3 :: x.token :: y.token :: z1.token :: c :: fd } (some b) off =
      some .abort) := by
  constructor
  · intro hc
    simp +decide [parseRecursive, parseBody, nextToken, scanString, scanOne_number, hc]
  · intro hc
    simp +decide [parseRecursive, parseBody, nextToken, scanString, scanOne_number, hc]

theorem C14_witness :
    parseRecursive (.finite 1) false (3 + 1)
        { buf := "End", self := sampleGraph,
          fd := .word "Foo" :: .word "[" :: .word "BAR" :: (Number.int "1" 1).token ::
            (Number.int "2" 2).token :: (Number.int "3" 3).token :: .word "\x7d" ::
            [.word "\x7d"] } (some 0) Vec3d_zeroVec =
      andThen (discard (parseRecursive (.finite 1) false 3
          (nextToken { buf := (Token.word "\x7d").text,
                       self := RcsBody_addShape sampleGraph 0 .RCSSHAPE_SPHERE,
                       fd := [.word "\x7d"] })
          (some 0) Vec3d_zeroVec))
        fun st => tailCheck (parseRecursive (.finite 1) false 3) st (some 0) :=
  (C14_end_site_checks_closing_brace (.finite 1) false 3 sampleGraph 0 Vec3d_zeroVec (.word "Foo") (.word "[")
    (.word "BAR") (.int "1" 1) (.int "2" 2) (.int "3" 3) (.word "\x7d") [.word "\x7d"]).1
    (by decide)

/-- C15, as stated, fails: on `missingBrace` the parse does not fail, a graph
with the bodies `r` and `a` is returned, and the ROOT frame returns with
`Frames:`, the token after MOTION, read into `buf`. -/
theorem C15_counterexample :
    (∃ g, RcsGraph_createFromBVHFile 3 (some missingBrace) (.finite 1) false = some (.ret (some g)) ∧
      g.nesting = [("r", none), ("a", some 0)]) ∧
    (∃ g, parseRecursive (.finite 1) false 3
        { buf := "ROOT", self := { bodies := [], joints := [] }, fd := missingBrace.drop 2 }
        none Vec3d_zeroVec =
      some (.ret (true, St.mk "Frames:" g
        [.int "2" 2, .word "Frame", .word "Time:", .int "1" 1]))) :=
  ⟨⟨_, rfl, rfl⟩, ⟨_, rfl⟩⟩

/-- C15, amended: in the JOINT branch the only check after the nested parse is
`RCHECK(success)`: when the nested parse returns false the process exits, and
when it returns true, on whatever token it stopped (the closing brace of the
block or a terminal MOTION, Frames:, Frame), the frame reads one more token and
goes on to line 275 with it; the closing brace is not required. -/
theorem C15_joint_checks_only_success (s : Double) (z : Bool) (n : Nat) (g : RcsGraph)
    (body : Option Nat) (off : Vec3) (name brace first : Token) (fd : List Token) (st1 : St) :
    (parseRecursive s z n
        { buf := first.text, self := RcsGraph_insertBody g body name.text false, fd := fd }
        (some g.bodies.length) Vec3d_zeroVec = some (.ret (true, st1)) →
      parseRecursive s z (n + 1)
        { buf := "JOINT", self := g, fd := name :: brace :: first :: fd } body off =
      tailCheck (parseRecursive s z n) (nextToken st1) body) ∧
    (parseRecursive s z n
        { buf := first.text, self := RcsGraph_insertBody g body name.text false, fd := fd }
        (some g.bodies.length) Vec3d_zeroVec = some (.ret (false, st1)) →
      parseRecursive s z (n + 1)
        { buf := "JOINT", self := g, fd := name :: brace :: first :: fd } body off =
      some .abort) := by
  constructor
  · intro h
    simp +decide [parseRecursive, parseBody, nextToken, scanString, andThen] at h ⊢
    simp [h, nextToken, scanString]
  · intro h
    simp +decide [parseRecursive, parseBody, nextToken, scanString, andThen] at h ⊢
    simp [h]

theorem C15_witness :
    parseRecursive (.finite 1) false (1 + 1)
        { buf := "JOINT", self := sampleGraph,
          fd := .word "a" :: .word "\x7b" :: .word "MOTION" :: [.word "Frames:"] }
        (some 0) Vec3d_zeroVec =
      tailCheck (parseRecursive (.finite 1) false 1)
        (nextToken { buf := "MOTION", self := RcsGraph_insertBody sampleGraph (some 0) "a" false,
                     fd := [.word "Frames:"] }) (some 0) :=
  (C15_joint_checks_only_success (.finite 1) false 1 sampleGraph (some 0) Vec3d_zeroVec (.word "a")
    (.word "\x7b") (.word "MOTION") [.word "Frames:"] _).1 rfl

/-! ## Claims C16 and C18: the probe loop -/

/-- C16: on a remaining stream of exactly `k` numeric tokens (`k + 1` below
2^32, so that the `unsigned int` counter does not wrap) the probe loop, given
more than `k` iterations, exits with its counter equal to `k + 1`; the
decrement of line 498 makes it `k`, and `k` is the value of the divisibility
check (null pointer when the frame count does not divide `k`) and of the
degree-of-freedom check (exit when `dof * numFrames` is not `k`).  The fill loop
stores the `k` values over the entries `0 .. k-1` of the matrix and leaves the
entry `k` and all later ones as they were. -/
theorem C16_probe_counts_one_more (fuel : Nat) (vals : List Number)
    (hk : vals.length + 1 < 2 ^ 32) (hfuel : vals.length < fuel) :
    probeLoop fuel (vals.map Number.token) 0 = some (vals.length + 1) ∧
    (vals.length + 1 + 2 ^ 32 - 1) % 2 ^ 32 = vals.length ∧
    (∀ (graph : RcsGraph) (F : Int) (lin ang : ℚ), toUnsigned F ≠ 0 →
      (vals.length % toUnsigned F ≠ 0 →
        motionData fuel graph F (vals.map Number.token) lin ang = some (.ret none)) ∧
      (vals.length % toUnsigned F = 0 → (graph.dof * toUnsigned F) % 2 ^ 32 ≠ vals.length →
        motionData fuel graph F (vals.map Number.token) lin ang = some .abort)) ∧
    (∀ ele : List ℚ, vals.length ≤ ele.length →
      fillLoop fuel (vals.map Number.token) 0 ele =
        some (.ret (vals.map Number.val ++ ele.drop vals.length))) := by
  refine ⟨?_, by omega, ?_, ?_⟩
  · rw [probeLoop_numbers fuel (vals.map Number.token) 0 (numbers_numeric vals)
      (by simpa using hfuel)]
    simp only [List.length_map, Nat.zero_add]
    rw [Nat.mod_eq_of_lt hk]
  · intro graph F lin ang hU
    rw [motionData_numbers_eq fuel graph F vals lin ang hk hfuel]
    constructor
    · intro hmod
      rw [if_neg hU, if_pos hmod]
    · intro hmod hdof
      rw [if_neg hU, if_neg (not_not.2 hmod), if_pos hdof]
  · intro ele hle
    have h := fillLoop_numbers vals fuel [] (ele.take vals.length) (ele.drop vals.length)
      (by simp [hle]) hfuel (by simp; omega)
    simpa using h

theorem C16_witness :
    probeLoop 11 (tenValues.map Number.token) 0 = some (tenValues.length + 1) ∧
    (tenValues.length + 1 + 2 ^ 32 - 1) % 2 ^ 32 = tenValues.length ∧
    (∀ (graph : RcsGraph) (F : Int) (lin ang : ℚ), toUnsigned F ≠ 0 →
      (tenValues.length % toUnsigned F ≠ 0 →
        motionData 11 graph F (tenValues.map Number.token) lin ang = some (.ret none)) ∧
      (tenValues.length % toUnsigned F = 0 →
        (graph.dof * toUnsigned F) % 2 ^ 32 ≠ tenValues.length →
        motionData 11 graph F (tenValues.map Number.token) lin ang = some .abort)) ∧
    (∀ ele : List ℚ, tenValues.length ≤ ele.length →
      fillLoop 11 (tenValues.map Number.token) 0 ele =
        some (.ret (tenValues.map Number.val ++ ele.drop tenValues.length))) :=
  C16_probe_counts_one_more 11 tenValues (by decide) (by decide)

/-- The JOINT frame on a well-formed block followed by the token `t`: the
nested parse stops on the closing brace of the block and the token the frame
reads next is `t`. -/
theorem joint_frame_reads_next (s : Double) (z : Bool) (blk : Block) (t : Token) (after : List Token)
    (hfit : blk.namesFit = true) (g : RcsGraph) (body : Option Nat) (off : Vec3) (n : Nat)
    (hfuel : blk.tokens.length ≤ n) :
    ∃ g2, parseRecursive s z (n + 1)
        { buf := "JOINT", self := g, fd := blk.tokens ++ t :: after } body off =
      tailCheck (parseRecursive s z n) { buf := t.text, self := g2, fd := after } body := by
  obtain ⟨nm, coff, chans, kids, es⟩ := blk
  have hfit1 := namesFit_mk hfit
  simp only [Block.tokens, List.length_append, List.length_cons, List.length_nil] at hfuel
  have hc : HasName (RcsGraph_insertBody g body nm false) g.bodies.length nm := by
    refine ⟨body, ?_⟩
    rw [nesting_insertBody, List.getElem?_append_right (by simp [length_nesting])]
    simp [length_nesting]
  obtain ⟨g2, hparse2, _⟩ := content_parses s z g.bodies.length nm hfit1.1
    (kids.tokens ++ endTokens es) (t :: after) _ _
    (joints_parses s z kids es g.bodies.length nm (t :: after) hfit1.2) coff chans
    (RcsGraph_insertBody g body nm false) n
    (by simp only [List.length_append]; omega) hc
  refine ⟨g2, ?_⟩
  have hnext1 : nextToken (St.mk "\x7b" (RcsGraph_insertBody g body nm false)
        (optOffsetTokens coff ++ (chans.flatMap channelsTokens ++
          (kids.tokens ++ (endTokens es ++ Token.word "\x7d" :: t :: after))))) =
      enter (RcsGraph_insertBody g body nm false)
        (optOffsetTokens coff ++ (chans.flatMap channelsTokens ++
          (kids.tokens ++ (endTokens es ++ Token.word "\x7d" :: t :: after)))) := by
    rw [← List.append_assoc, ← List.append_assoc, ← List.append_assoc]
    exact nextToken_append _ _ _ _ _
  simp only [List.append_assoc] at hparse2
  simp only [Block.tokens, List.cons_append, List.append_assoc, parseRecursive, parseBody,
    Token.text, List.nil_append]
  simp +decide only [if_true, if_false]
  simp only [nextToken, scanString, Token.text]
  simp only [nextToken, scanString, Token.text] at hnext1
  rw [hnext1, hparse2]
  simp only [andThen, if_false]
  simp

/-- C17: on a well-formed file (HIERARCHY, one ROOT block, then a MOTION
section or any other tokens `rest`), `parseRecursive`, started as
`RcsGraph_createFromBVHFile` starts it and given as many frames as the root
block has tokens, returns true with the closing brace of the ROOT block as the
last token read and the file positioned at `rest`: the token MOTION and what
follows it are not read.  And a JOINT frame on a well-formed block goes on to
line 275 with the token that follows the closing brace of that block, the file
positioned after that token. -/
theorem C17_cursor_discipline :
    (∀ (root : Block) (rest : List Token) (s : Double) (z : Bool) (fuel : Nat),
      root.namesFit = true → root.tokens.length ≤ fuel →
      ∃ g1, parseRecursive s z fuel
          { buf := "ROOT",
            self := if z then RcsGraph_insertBody { bodies := [], joints := [] } none "BVHROOT" true
              else { bodies := [], joints := [] },
            fd := root.tokens ++ rest }
          (if z then some 0 else none) Vec3d_zeroVec =
        some (.ret (true, { buf := "\x7d", self := g1, fd := rest }))) ∧
    (∀ (blk : Block) (t : Token) (after : List Token) (s : Double) (z : Bool) (g : RcsGraph)
      (body : Option Nat) (off : Vec3) (n : Nat),
      blk.namesFit = true → blk.tokens.length ≤ n →
      ∃ g2, parseRecursive s z (n + 1)
          { buf := "JOINT", self := g, fd := blk.tokens ++ t :: after } body off =
        tailCheck (parseRecursive s z n) { buf := t.text, self := g2, fd := after } body) := by
  constructor
  · intro root rest s z fuel hfit hfuel
    obtain ⟨g1, h, _⟩ := root_parses s z root rest hfit
      (if z then RcsGraph_insertBody { bodies := [], joints := [] } none "BVHROOT" true
        else { bodies := [], joints := [] }) (if z then some 0 else none) fuel hfuel
    exact ⟨g1, h⟩
  · intro blk t after s z g body off n hfit hfuel
    exact joint_frame_reads_next s z blk t after hfit g body off n hfuel

theorem C17_witness :
    sampleRoot.namesFit = true ∧ sampleRoot.tokens.length ≤ 64 ∧
    ∃ g1, parseRecursive (.finite 1) false 64
        { buf := "ROOT",
          self := if false then
              RcsGraph_insertBody { bodies := [], joints := [] } none "BVHROOT" true
            else { bodies := [], joints := [] },
          fd := sampleRoot.tokens ++ sampleMotion }
        (if false then some 0 else none) Vec3d_zeroVec =
      some (.ret (true, { buf := "\x7d", self := g1, fd := sampleMotion })) :=
  ⟨by decide, by decide,
    C17_cursor_discipline.1 sampleRoot sampleMotion (.finite 1) false 64 (by decide) (by decide)⟩

/-! ## Claim C19: a frame count of 0 -/

theorem motionHeader_noCount (t : Number) (vals : List Number) :
    motionHeader (motionSectionNoCount t vals) = .ret (0, t.val, vals.map Number.token) := by
  simp +decide [motionHeader, motionSectionNoCount, scanString, Token.text, scanCount, scanInt, Scan.rest,
    scanDouble_number]

/-- C19: for a motion section of numeric values whose `Frames:` value is 0, and
for one whose frame count cannot be read (so that `numFrames` keeps its initial
0), `RcsGraph_createTrajectoryFromBVHFile` reaches `numValues % numFrames` with
the divisor 0: the result is undefined behaviour, not the null pointer of a
shape mismatch.  With a frame count other than 0 (in the range of `int`) that
does not divide the number of values, the same line leads to the null
pointer. -/
theorem C19_zero_frame_count_divides_by_zero (fuel : Nat) (graph : RcsGraph) (fd : List Token)
    (t : Number) (vals : List Number) (lin ang : ℚ)
    (hk : vals.length + 1 < 2 ^ 32) (hfuel : vals.length < fuel) :
    (∀ tx, findKeyword "MOTION" fd = (true, motionSection tx 0 t vals) →
      RcsGraph_createTrajectoryFromBVHFile fuel graph (some fd) lin ang = some .undefined) ∧
    (findKeyword "MOTION" fd = (true, motionSectionNoCount t vals) →
      RcsGraph_createTrajectoryFromBVHFile fuel graph (some fd) lin ang = some .undefined) ∧
    (∀ tx (F : Int), findKeyword "MOTION" fd = (true, motionSection tx F t vals) →
      F ≠ 0 → -(2 ^ 31) ≤ F → F < 2 ^ 31 → vals.length % toUnsigned F ≠ 0 →
      RcsGraph_createTrajectoryFromBVHFile fuel graph (some fd) lin ang =
        some (.ret (none, some t.val))) := by
  have h0 : toUnsigned 0 = 0 := by decide
  refine ⟨?_, ?_, ?_⟩
  · intro tx hfind
    simp only [RcsGraph_createTrajectoryFromBVHFile, hfind, motionHeader_section,
      motionData_numbers_eq fuel graph 0 vals _ _ hk hfuel, h0, if_true, andThen]
  · intro hfind
    simp only [RcsGraph_createTrajectoryFromBVHFile, hfind, motionHeader_noCount,
      motionData_numbers_eq fuel graph 0 vals _ _ hk hfuel, h0, if_true, andThen]
  · intro tx F hfind hF hlo hhi hmod
    have hU : toUnsigned F ≠ 0 := by
      unfold toUnsigned
      omega
    simp only [RcsGraph_createTrajectoryFromBVHFile, hfind, motionHeader_section,
      motionData_numbers_eq fuel graph F vals _ _ hk hfuel, hU, if_false, hmod, ne_eq,
      not_false_eq_true, if_true, andThen]

theorem C19_witness :
    RcsGraph_createTrajectoryFromBVHFile 11 sampleGraph
      (some (.word "MOTION" :: motionSection "0" 0 (.int "1" 1) tenValues)) 1 1 =
      some .undefined :=
  (C19_zero_frame_count_divides_by_zero 11 sampleGraph _ (.int "1" 1) tenValues 1 1
    (by decide) (by decide)).1 "0" rfl

/-! ## Claim C20: the buffer of the joint name -/

/-- C20: in one iteration of the CHANNELS loop the joint name is formatted
before the label is looked at: with a name that does not fit the 128 bytes of
the buffer the iteration overruns it, whether or not the label is valid.  For
the six valid labels and a body name of at most 63 characters the name and its
terminator take at most 78 bytes; for the body name and the label of 63
characters each, both of which `%63s` delivers, they take 132 bytes, and on
`HIERARCHY ROOT <name> { CHANNELS 1 <label> }` the parser overruns the buffer. -/
theorem C20_joint_name_buffer :
    (∀ (b : Nat) (bd : RcsBody) (g : RcsGraph) (buf : String) (t : Token) (fd : List Token)
      (offset : Vec3) (n i : Nat),
      g.bodies[b]? = some bd → 128 < jointNameSize bd.name t.text →
      channelsLoop (some b) offset (n + 1) i { buf := buf, self := g, fd := t :: fd } =
        .undefined) ∧
    (∀ (l : Label) (bodyName : String), bodyName.length ≤ 63 →
      jointNameSize bodyName l.text ≤ 78) ∧
    (longBodyName.length ≤ 63 ∧ longLabel.length ≤ 63 ∧
      jointNameSize longBodyName longLabel = 63 + 5 + 63 + 1 ∧
      128 < jointNameSize longBodyName longLabel) ∧
    (∀ (n : Nat) (s : Double) (z : Bool),
      RcsGraph_createFromBVHFile (n + 2)
        (some [.word "HIERARCHY", .word "ROOT", .word longBodyName, .word "\x7b",
          .word "CHANNELS", .int "1" 1, .word longLabel, .word "\x7d"]) s z =
        some .undefined) := by
  refine ⟨?_, ?_, ⟨by decide, by decide, by decide, by decide⟩, ?_⟩
  · intro b bd g buf t fd offset n i hb hsize
    simp only [channelsLoop, nextToken, scanString, hb, hsize, if_true]
  · intro l bodyName h
    simp only [jointNameSize, length_label]
    omega
  · intro n s z
    have hsize : 128 < jointNameSize longBodyName longLabel := by decide
    cases z <;>
      simp +decide [RcsGraph_createFromBVHFile, nextToken, scanString, Token.text,
        parseRecursive, parseBody, scanCount, scanInt, channelsLoop, RcsGraph_insertBody,
        hsize, discard, andThen]

theorem C20_witness :
    channelsLoop (some 0) Vec3d_zeroVec (0 + 1) 0
        { buf := "1",
          self := { bodies := [{ name := longBodyName, parent := none, A_BP := false,
                                 shapes := [] }],
                    joints := [] },
          fd := .word longLabel :: [.word "\x7d"] } = .undefined :=
  C20_joint_name_buffer.1 0 _ _ "1" (.word longLabel) [.word "\x7d"] Vec3d_zeroVec 0 0 rfl
    (by decide)

end BVH
